import Mathlib

/-!
# Synthesizer-AudioGenerator: modulation matrix, distortion, audio chain, key gating, serial input

A shallow embedding of `src/main.cpp`.  The firmware keeps its state in global
variables; here they are the fields of one record `Synth`, with the names of the
source.  An `int` is a 32-bit two's-complement integer: every arithmetic result
is reduced by `wrap32`.  A `byte` is reduced modulo 256.  The fixed-size tables
(`int x[numModValues]`, `bool x[matrix1 * matrix2]`, `char x[numChars]`) are
functions on `Fin 9`, `Fin 32` and `Fin 32`; an access outside a table makes
the embedded function return `none`.  A `String` is a list of characters; the
operations of the Arduino `String` class that `checkData` uses are modelled as
that library documents them.  `detune` is taken over the rationals.
-/

namespace Synthesizer

/-! ## Machine integers -/

/-- Reduction of an integer to the 32-bit two's-complement range of `int`. -/
def wrap32 (x : Int) : Int := (x + 2147483648) % 4294967296 - 2147483648

/-- The values an `int` variable can hold. -/
def inInt32 (x : Int) : Prop := -2147483648 ≤ x ∧ x ≤ 2147483647

instance (x : Int) : Decidable (inInt32 x) :=
  inferInstanceAs (Decidable (-2147483648 ≤ x ∧ x ≤ 2147483647))

/-- The number of modulation targets, `#define numModValues 9`. -/
abbrev numModValues : Nat := 9

/-- The number of key-matrix input pins, `#define matrix1 8`. -/
abbrev matrix1 : Nat := 8

/-- The number of key-matrix output pins, `#define matrix2 4`. -/
abbrev matrix2 : Nat := 4

/-- Overwrite one entry of a fixed-size table. -/
def setAt {n : Nat} {α : Type} (a : Fin n → α) (k : Fin n) (v : α) : Fin n → α :=
  fun j => if j = k then v else a j

/-! ## Global state -/

/-- The global variables of `main.cpp` that the embedded functions read or write. -/
structure Synth where
  numVoices : Nat
  currentState : Fin (matrix1 * matrix2) → Bool
  requestState : Fin (matrix1 * matrix2) → Bool
  env2_now : Int
  LFO1_now : Int
  LFO2_now : Int
  outputSignal : Int
  OCTAVE : Int
  SLIDETIME : Int
  OSC1_OCT : Int
  OSC1_SEMI : Int
  OSC1_LEVEL : Int
  OSC1_FINE : Int
  OSC2_OCT : Int
  OSC2_SEMI : Int
  OSC2_LEVEL : Int
  OSC2_FINE : Int
  NOISE_LEVEL : Int
  ENV2_STATE : Bool
  LFO1_STATE : Bool
  LFO2_STATE : Bool
  PREDISTSTATE : Bool
  PREDISTAMOUNT : Int
  PREDISTMODE : Int
  POSTDISTSTATE : Bool
  POSTDISTAMOUNT : Int
  POSTDISTMODE : Int
  FILTERSTATE : Int
  FILTERTYPE : Int
  FILTERCUTOFF : Int
  FILTERRESONANCE : Int
  modValues : Fin numModValues → Int
  modulatedValuesOutput : Fin numModValues → Int
  env2VarNdx : Fin numModValues → Int
  env2Amount : Fin numModValues → Int
  env2ModType : Fin numModValues → Int
  LFO1VarNdx : Fin numModValues → Int
  LFO1Amount : Fin numModValues → Int
  LFO1ModType : Fin numModValues → Int
  LFO2VarNdx : Fin numModValues → Int
  LFO2Amount : Fin numModValues → Int
  LFO2ModType : Fin numModValues → Int

/-- The state after the global initialisers of `main.cpp` have run. -/
def initial : Synth where
  numVoices := 0
  currentState := fun _ => false
  requestState := fun _ => false
  env2_now := 0
  LFO1_now := 0
  LFO2_now := 0
  outputSignal := 0
  OCTAVE := 4
  SLIDETIME := 50
  OSC1_OCT := 0
  OSC1_SEMI := 0
  OSC1_LEVEL := 255
  OSC1_FINE := 0
  OSC2_OCT := 0
  OSC2_SEMI := 0
  OSC2_LEVEL := 0
  OSC2_FINE := 0
  NOISE_LEVEL := 0
  ENV2_STATE := false
  LFO1_STATE := false
  LFO2_STATE := false
  PREDISTSTATE := false
  PREDISTAMOUNT := 0
  PREDISTMODE := 0
  POSTDISTSTATE := false
  POSTDISTAMOUNT := 0
  POSTDISTMODE := 0
  FILTERSTATE := 0
  FILTERTYPE := 0
  FILTERCUTOFF := 255
  FILTERRESONANCE := 5
  modValues := fun _ => 0
  modulatedValuesOutput := fun _ => 0
  env2VarNdx := fun _ => -1
  env2Amount := fun _ => 0
  env2ModType := fun _ => 0
  LFO1VarNdx := fun _ => -1
  LFO1Amount := fun _ => 0
  LFO1ModType := fun _ => 0
  LFO2VarNdx := fun _ => -1
  LFO2Amount := fun _ => 0
  LFO2ModType := fun _ => 0

/-- The table `int *ptrModValues[numModValues]`, dereferenced: entry `i` is the
current base value of modulation target `i`. -/
def ptrModValues (s : Synth) (i : Fin numModValues) : Int :=
  match i.val with
  | 0 => s.OSC1_LEVEL
  | 1 => s.OSC1_FINE
  | 2 => s.OSC2_LEVEL
  | 3 => s.OSC2_FINE
  | 4 => s.NOISE_LEVEL
  | 5 => s.PREDISTAMOUNT
  | 6 => s.POSTDISTAMOUNT
  | 7 => s.FILTERCUTOFF
  | _ => s.FILTERRESONANCE

/-! ## Effects: `distortion` -/

/-- The function `int distortion(int signal, int amount, bool enabled, int mode)`.
The division `amount / 51` truncates toward zero; products, sums and
differences are 32-bit. -/
def distortion (signal amount : Int) (enabled : Bool) (mode : Int) : Int :=
  if enabled then
    let amount := wrap32 (1 + Int.tdiv amount 51)
    if mode = 0 then
      let output := wrap32 (signal * amount)
      if output > 24500 then 24500
      else if output < -24500 then -24500
      else output
    else if mode = 1 then
      let output := wrap32 (signal * amount)
      if output > 32768 then wrap32 (32768 - wrap32 (output - 32768))
      else if output < -32768 then wrap32 (-32768 - wrap32 (output + 32768))
      else output
    else signal
  else signal

/-! ## Matrix: `modulator` -/

/-- A subscript into a table of `numModValues` entries, when it is inside it. -/
def modIndex (k : Int) : Option (Fin numModValues) :=
  if h : 0 ≤ k ∧ k < 9 then some ⟨k.toNat, by show k.toNat < 9; omega⟩ else none

/-- The statement `modValues[ndx] += output;`. -/
def addModValue (modValues : Fin numModValues → Int) (ndx output : Int) :
    Option (Fin numModValues → Int) :=
  match modIndex ndx with
  | some k => some (setAt modValues k (wrap32 (modValues k + output)))
  | none => none

/-- The body of `if (env2) { ... }` for slot `i`: the secondary envelope's route. -/
def env2Block (s : Synth) (i : Fin numModValues) (modValues : Fin numModValues → Int) :
    Option (Fin numModValues → Int) :=
  if s.env2VarNdx i ≠ -1 then
    if s.env2ModType i = 0 then
      addModValue modValues (s.env2VarNdx i)
        (wrap32 (s.env2_now * s.env2Amount i) >>> (8 : Nat))
    else
      addModValue modValues (s.env2VarNdx i)
        (wrap32 (wrap32 (s.env2_now - 128) * s.env2Amount i) >>> (8 : Nat))
  else some modValues

/-- The body of `if (lfo1) { ... }` (and of `if (lfo2) { ... }`, the same text
over the other LFO's sample and tables) for slot `i`. -/
def lfoBlock (now : Int) (varNdx amount modType : Fin numModValues → Int)
    (i : Fin numModValues) (modValues : Fin numModValues → Int) :
    Option (Fin numModValues → Int) :=
  if varNdx i ≠ -1 then
    if modType i = 0 then
      addModValue modValues (varNdx i) (wrap32 (wrap32 (now + 128) * amount i) >>> (8 : Nat))
    else
      addModValue modValues (varNdx i) (wrap32 (now * amount i) >>> (8 : Nat))
  else some modValues

/-- One iteration of the second `for` loop of `modulator`. -/
def modulatorBody (s : Synth) (env2 lfo1 lfo2 : Bool)
    (modValues : Fin numModValues → Int) (i : Fin numModValues) :
    Option (Fin numModValues → Int) :=
  (if env2 then env2Block s i modValues else some modValues).bind fun m1 =>
  (if lfo1 then lfoBlock s.LFO1_now s.LFO1VarNdx s.LFO1Amount s.LFO1ModType i m1
    else some m1).bind fun m2 =>
  if lfo2 then lfoBlock s.LFO2_now s.LFO2VarNdx s.LFO2Amount s.LFO2ModType i m2
    else some m2

/-- The second `for` loop of `modulator`, over the slots in `l`. -/
def modulatorLoop (s : Synth) (env2 lfo1 lfo2 : Bool) :
    List (Fin numModValues) → (Fin numModValues → Int) → Option (Fin numModValues → Int)
  | [], modValues => some modValues
  | i :: l, modValues =>
    (modulatorBody s env2 lfo1 lfo2 modValues i).bind (modulatorLoop s env2 lfo1 lfo2 l)

/-- The clamp of the third loop: `if (finalOutput > 255) ... else if (finalOutput < -255) ...`. -/
def clampFinal (finalOutput : Int) : Int :=
  if finalOutput > 255 then 255
  else if finalOutput < -255 then -255
  else finalOutput

/-- The function `void modulator(bool env2, bool lfo1, bool lfo2)`: clear
`modValues`, accumulate the routes of the enabled sources slot by slot, then
store base value plus accumulated offset, clamped, in `modulatedValuesOutput`. -/
def modulator (s : Synth) (env2 lfo1 lfo2 : Bool) : Option Synth :=
  (modulatorLoop s env2 lfo1 lfo2 (List.finRange numModValues) (fun _ => 0)).map fun mv =>
    { s with
      modValues := mv
      modulatedValuesOutput := fun i => clampFinal (wrap32 (ptrModValues s i + mv i)) }

/-- The value `output` that the envelope route of slot `i` adds to its target. -/
def env2Output (s : Synth) (i : Fin numModValues) : Int :=
  if s.env2ModType i = 0 then wrap32 (s.env2_now * s.env2Amount i) >>> (8 : Nat)
  else wrap32 (wrap32 (s.env2_now - 128) * s.env2Amount i) >>> (8 : Nat)

/-- The value `output` that an LFO route of slot `i` adds to its target. -/
def lfoOutput (now : Int) (amount modType : Fin numModValues → Int)
    (i : Fin numModValues) : Int :=
  if modType i = 0 then wrap32 (wrap32 (now + 128) * amount i) >>> (8 : Nat)
  else wrap32 (now * amount i) >>> (8 : Nat)

/-- What one iteration of the loop adds to `modValues[t]` in slot `i`, before
the 32-bit reduction of the running sum. -/
def slotOutput (s : Synth) (env2 lfo1 lfo2 : Bool) (t i : Fin numModValues) : Int :=
  (if env2 = true ∧ s.env2VarNdx i = (t.val : Int) then env2Output s i else 0)
  + (if lfo1 = true ∧ s.LFO1VarNdx i = (t.val : Int)
    then lfoOutput s.LFO1_now s.LFO1Amount s.LFO1ModType i else 0)
  + (if lfo2 = true ∧ s.LFO2VarNdx i = (t.val : Int)
    then lfoOutput s.LFO2_now s.LFO2Amount s.LFO2ModType i else 0)

/-! ### The modulation matrix as the specification words it -/

/-- The contribution of a secondary-envelope route: `envValue * amount / 256`
in the absolute mode (type 0), `(envValue - 128) * amount / 256` otherwise,
the division rounding toward negative infinity. -/
def envContribution (envValue amount modType : Int) : Int :=
  if modType = 0 then envValue * amount / 256 else (envValue - 128) * amount / 256

/-- The contribution of an LFO route: `(lfoValue + 128) * amount / 256` in the
unipolar mode (type 0), `lfoValue * amount / 256` otherwise, the division
rounding toward negative infinity. -/
def lfoContribution (lfoValue amount modType : Int) : Int :=
  if modType = 0 then (lfoValue + 128) * amount / 256 else lfoValue * amount / 256

/-- What slot `i` contributes to target `t`: the contribution of each enabled
source whose route in slot `i` targets `t`. -/
def slotContribution (s : Synth) (env2 lfo1 lfo2 : Bool) (t i : Fin numModValues) : Int :=
  (if env2 = true ∧ s.env2VarNdx i = (t.val : Int)
    then envContribution s.env2_now (s.env2Amount i) (s.env2ModType i) else 0)
  + (if lfo1 = true ∧ s.LFO1VarNdx i = (t.val : Int)
    then lfoContribution s.LFO1_now (s.LFO1Amount i) (s.LFO1ModType i) else 0)
  + (if lfo2 = true ∧ s.LFO2VarNdx i = (t.val : Int)
    then lfoContribution s.LFO2_now (s.LFO2Amount i) (s.LFO2ModType i) else 0)

/-- The clamp of a value to `[-255, 255]`. -/
def clamp255 (x : Int) : Int := max (-255) (min 255 x)

/-- The effective value of target `t` as specified: base value plus the sum of
all enabled contributions, clamped to `[-255, 255]`. -/
def effectiveValue (s : Synth) (env2 lfo1 lfo2 : Bool) (t : Fin numModValues) : Int :=
  clamp255 (ptrModValues s t
    + ((List.finRange numModValues).map (slotContribution s env2 lfo1 lfo2 t)).sum)

/-- A route table is usable when every target index is `-1` or in `0..8`. -/
def validTargets (varNdx : Fin numModValues → Int) : Prop :=
  ∀ i, varNdx i = -1 ∨ (0 ≤ varNdx i ∧ varNdx i ≤ 8)

instance (varNdx : Fin numModValues → Int) : Decidable (validTargets varNdx) :=
  inferInstanceAs (Decidable (∀ i, varNdx i = -1 ∨ (0 ≤ varNdx i ∧ varNdx i ≤ 8)))

/-- The route tables of the enabled sources are usable: the targets `modulator`
will write through are `-1` or in `0..8`. -/
def enabledTargetsValid (s : Synth) (env2 lfo1 lfo2 : Bool) : Prop :=
  (env2 = true → validTargets s.env2VarNdx) ∧ (lfo1 = true → validTargets s.LFO1VarNdx)
    ∧ (lfo2 = true → validTargets s.LFO2VarNdx)

/-- The amounts of all three route tables lie in `[-8388608, 8388608]`, so that
no product of a source sample and an amount leaves the 32-bit range. -/
def amountsBounded (s : Synth) : Prop :=
  ∀ i, (-8388608 ≤ s.env2Amount i ∧ s.env2Amount i ≤ 8388608)
    ∧ (-8388608 ≤ s.LFO1Amount i ∧ s.LFO1Amount i ≤ 8388608)
    ∧ (-8388608 ≤ s.LFO2Amount i ∧ s.LFO2Amount i ≤ 8388608)

instance (s : Synth) : Decidable (amountsBounded s) :=
  inferInstanceAs (Decidable (∀ i, (-8388608 ≤ s.env2Amount i ∧ s.env2Amount i ≤ 8388608)
    ∧ (-8388608 ≤ s.LFO1Amount i ∧ s.LFO1Amount i ≤ 8388608)
    ∧ (-8388608 ≤ s.LFO2Amount i ∧ s.LFO2Amount i ≤ 8388608)))

/-- The base values of the nine targets lie in `[-1073741824, 1073741824]`. -/
def basesBounded (s : Synth) : Prop :=
  ∀ t, -1073741824 ≤ ptrModValues s t ∧ ptrModValues s t ≤ 1073741824

instance (s : Synth) : Decidable (basesBounded s) :=
  inferInstanceAs (Decidable (∀ t, -1073741824 ≤ ptrModValues s t ∧ ptrModValues s t ≤ 1073741824))

/-- The sources hold samples of their types: the envelope a `byte`, the LFOs
values in `-128..127`. -/
def sourcesInRange (s : Synth) : Prop :=
  (0 ≤ s.env2_now ∧ s.env2_now ≤ 255) ∧ (-128 ≤ s.LFO1_now ∧ s.LFO1_now ≤ 127)
    ∧ (-128 ≤ s.LFO2_now ∧ s.LFO2_now ≤ 127)

instance (s : Synth) : Decidable (sourcesInRange s) :=
  inferInstanceAs (Decidable ((0 ≤ s.env2_now ∧ s.env2_now ≤ 255)
    ∧ (-128 ≤ s.LFO1_now ∧ s.LFO1_now ≤ 127) ∧ (-128 ≤ s.LFO2_now ∧ s.LFO2_now ≤ 127)))

/-- The first worked example of the specification: envelope sample 200, slot 0
bound to target 0 with amount 128 in the absolute mode, base value 100. -/
def envRouteExample : Synth :=
  { initial with
    env2_now := 200
    OSC1_LEVEL := 100
    env2VarNdx := setAt initial.env2VarNdx 0 0
    env2Amount := setAt initial.env2Amount 0 128 }

/-- The second worked example of the specification: LFO1 sample -100, slot 2
bound to target 2 with amount 64 in the bipolar mode, base value 50. -/
def lfoRouteExample : Synth :=
  { initial with
    LFO1_now := -100
    OSC2_LEVEL := 50
    LFO1VarNdx := setAt initial.LFO1VarNdx 2 2
    LFO1Amount := setAt initial.LFO1Amount 2 64
    LFO1ModType := setAt initial.LFO1ModType 2 1 }

/-- A state whose envelope route has the amount 16777216: the product
`200 * 16777216` does not fit 32 bits. -/
def overflowExample : Synth :=
  { initial with
    env2_now := 200
    OSC1_LEVEL := 0
    env2VarNdx := setAt initial.env2VarNdx 0 0
    env2Amount := setAt initial.env2Amount 0 16777216 }

/-- The state `s` with the secondary envelope's sample and route tables replaced. -/
def withEnv2 (s : Synth) (now : Int) (varNdx amount modType : Fin numModValues → Int) : Synth :=
  { s with
    env2_now := now
    env2VarNdx := varNdx
    env2Amount := amount
    env2ModType := modType }

/-- The state `s` with the sample and route tables of LFO1 replaced. -/
def withLFO1 (s : Synth) (now : Int) (varNdx amount modType : Fin numModValues → Int) : Synth :=
  { s with
    LFO1_now := now
    LFO1VarNdx := varNdx
    LFO1Amount := amount
    LFO1ModType := modType }

/-- The state `s` with the sample and route tables of LFO2 replaced. -/
def withLFO2 (s : Synth) (now : Int) (varNdx amount modType : Fin numModValues → Int) : Synth :=
  { s with
    LFO2_now := now
    LFO2VarNdx := varNdx
    LFO2Amount := amount
    LFO2ModType := modType }

/-! ## Audio chain: `updateAudio` -/

/-- The four responses of the resonant filter, read back after `filter.next`. -/
structure FilterOut where
  low : Int
  band : Int
  high : Int
  notch : Int

/-- The function `AudioOutput updateAudio()`.  The samples of the library
objects are inputs: `env1next` is `env1.next()`, `osc1next`, `osc2next` and
`noiseNext` are the oscillators' `next()`, and `filter x` is what the filter
reports after `filter.next(x)`.  The result is the new state and the pair
handed to `StereoOutput::from16Bit`. -/
def updateAudio (s : Synth) (env1next osc1next osc2next noiseNext : Int)
    (filter : Int → FilterOut) : Synth × (Int × Int) :=
  let mix := wrap32 (wrap32 (osc1next * s.modulatedValuesOutput 0)
    + wrap32 (osc2next * s.modulatedValuesOutput 2)) >>> (8 : Nat)
  let sig0 := wrap32 (wrap32 (env1next * mix) * 3) >>> (3 : Nat)
  let sig1 := distortion sig0 s.PREDISTAMOUNT s.PREDISTSTATE s.PREDISTMODE
  let f := filter sig1
  let sig2 :=
    if s.FILTERSTATE ≠ 0 then
      if s.FILTERTYPE = 0 then f.low
      else if s.FILTERTYPE = 2 then f.high
      else if s.FILTERTYPE = 1 then f.band
      else if s.FILTERTYPE = 3 then f.notch
      else sig1
    else sig1
  let sig3 := distortion sig2 s.POSTDISTAMOUNT s.POSTDISTSTATE s.POSTDISTMODE
  let asig :=
    if s.NOISE_LEVEL ≠ 0 then
      wrap32 (sig3
        + (wrap32 (wrap32 (env1next * noiseNext) * s.modulatedValuesOutput 4) >>> (8 : Nat)) >>> (2 : Nat))
    else sig3
  ({ s with outputSignal := asig }, (asig, asig))

/-! ## Keyboard: `readKeys`, `writeKeys` -/

/-- A call made by `writeKeys`: `handleNoteOn(note)` or `handleNoteOff()`. -/
inductive KeyEvent where
  | noteOn (note : Nat)
  | noteOff
  deriving DecidableEq, Repr

/-- The value of `note = 27 - i`, stored in a `byte`. -/
def noteOfKey (i : Fin (matrix1 * matrix2)) : Nat := ((27 - (i.val : Int)) % 256).toNat

/-- The function `readKeys`, the pin reads being the input `pins`
(`pins i` is `!digitalRead` of key `i`). -/
def readKeys (s : Synth) (pins : Fin (matrix1 * matrix2) → Bool) : Synth :=
  { s with requestState := pins }

/-- One iteration of the loop of `writeKeys`, with the calls it makes. -/
def writeKeysBody (s : Synth) (i : Fin (matrix1 * matrix2)) : Synth × List KeyEvent :=
  let p1 : Synth × List KeyEvent :=
    if s.requestState i = true ∧ s.currentState i = false then
      ({ s with
          currentState := setAt s.currentState i (s.requestState i)
          numVoices := (s.numVoices + 1) % 256 },
        [KeyEvent.noteOn (noteOfKey i)])
    else (s, [])
  let s1 := p1.1
  if s1.requestState i = false ∧ s1.currentState i = true then
    let s2 : Synth :=
      { s1 with
        currentState := setAt s1.currentState i (s1.requestState i)
        numVoices := (s1.numVoices + 255) % 256 }
    (s2, p1.2 ++ (if s2.numVoices = 0 then [KeyEvent.noteOff] else []))
  else (s1, p1.2)

/-- The loop of `writeKeys` over the keys in `l`, collecting the calls in order. -/
def writeKeysLoop : List (Fin (matrix1 * matrix2)) → Synth → Synth × List KeyEvent
  | [], s => (s, [])
  | i :: l, s =>
    let r := writeKeysBody s i
    let r2 := writeKeysLoop l r.1
    (r2.1, r.2 ++ r2.2)

/-- The keys the loop of `writeKeys` visits: `i = 3, ..., matrix1 * matrix2 - 1`. -/
def keyIndices : List (Fin (matrix1 * matrix2)) := (List.finRange (matrix1 * matrix2)).drop 3

/-- The function `void writeKeys()`, with the calls it makes. -/
def writeKeys (s : Synth) : Synth × List KeyEvent := writeKeysLoop keyIndices s

/-- One keyboard scan of `updateControl`: `readKeys(); writeKeys();`. -/
def scanKeys (s : Synth) (pins : Fin (matrix1 * matrix2) → Bool) : Synth × List KeyEvent :=
  writeKeys (readKeys s pins)

/-- The state after the successive scans `scans`. -/
def runScans (s : Synth) (scans : List (Fin (matrix1 * matrix2) → Bool)) : Synth :=
  scans.foldl (fun st pins => (scanKeys st pins).1) s

/-- The pin reads when exactly the keys in `held` are pressed. -/
def keysDown (held : List (Fin (matrix1 * matrix2))) : Fin (matrix1 * matrix2) → Bool :=
  fun i => decide (i ∈ held)

/-- The number of keys in `3..31` that `currentState` records as held. -/
def heldCount (currentState : Fin (matrix1 * matrix2) → Bool) : Nat :=
  (Finset.univ.filter fun j : Fin (matrix1 * matrix2) => 3 ≤ j.val ∧ currentState j = true).card

/-- How many of the calls in `evs` are `handleNoteOff`. -/
def noteOffCount (evs : List KeyEvent) : Nat :=
  evs.countP fun e => match e with
    | KeyEvent.noteOn _ => false
    | KeyEvent.noteOff => true

/-- The filter responses used where the filter is bypassed: all zero. -/
def silentFilter : Int → FilterOut := fun _ => { low := 0, band := 0, high := 0, notch := 0 }

/-- A state in which the secondary envelope (sample 255) is routed to target 5,
the pre-filter distortion amount, with amount 256 in the absolute mode; the
base `PREDISTAMOUNT` is 0, the pre-filter distortion is enabled in clip mode,
and oscillator 1 has level 255. -/
def distRouteExample : Synth :=
  { initial with
    env2_now := 255
    PREDISTSTATE := true
    env2VarNdx := setAt initial.env2VarNdx 0 5
    env2Amount := setAt initial.env2Amount 0 256 }

/-- The ranges of C10: envelope sample in `0..255`, oscillator and noise
samples in `-128..127`, the three effective levels that `updateAudio` reads in
`[-255, 255]`, the filter off, and each distortion stage either disabled or
enabled in mode 0 with an amount in `0..255`. -/
def audioInputsInRange (s : Synth) (env1next osc1next osc2next noiseNext : Int) : Prop :=
  (0 ≤ env1next ∧ env1next ≤ 255)
    ∧ (-128 ≤ osc1next ∧ osc1next ≤ 127) ∧ (-128 ≤ osc2next ∧ osc2next ≤ 127)
    ∧ (-128 ≤ noiseNext ∧ noiseNext ≤ 127)
    ∧ (-255 ≤ s.modulatedValuesOutput 0 ∧ s.modulatedValuesOutput 0 ≤ 255)
    ∧ (-255 ≤ s.modulatedValuesOutput 2 ∧ s.modulatedValuesOutput 2 ≤ 255)
    ∧ (-255 ≤ s.modulatedValuesOutput 4 ∧ s.modulatedValuesOutput 4 ≤ 255)
    ∧ s.FILTERSTATE = 0
    ∧ (s.PREDISTSTATE = false
        ∨ (s.PREDISTMODE = 0 ∧ 0 ≤ s.PREDISTAMOUNT ∧ s.PREDISTAMOUNT ≤ 255))
    ∧ (s.POSTDISTSTATE = false
        ∨ (s.POSTDISTMODE = 0 ∧ 0 ≤ s.POSTDISTAMOUNT ∧ s.POSTDISTAMOUNT ≤ 255))

instance (s : Synth) (env1next osc1next osc2next noiseNext : Int) :
    Decidable (audioInputsInRange s env1next osc1next osc2next noiseNext) := by
  unfold audioInputsInRange; exact inferInstance

/-- The voice counter agrees with the key table: `numVoices` is the number of
keys in `3..31` recorded as held. -/
def voicesCounted (s : Synth) : Prop := s.numVoices = heldCount s.currentState

/-- No key is recorded as held and the voice counter is zero. -/
def noKeyHeld (s : Synth) : Prop := (∀ j, s.currentState j = false) ∧ s.numVoices = 0

instance (s : Synth) : Decidable (noKeyHeld s) :=
  inferInstanceAs (Decidable ((∀ j, s.currentState j = false) ∧ s.numVoices = 0))

/-- The state in which the iteration for the `k`-th key of a scan starts: the
scans `scans` have run from `s`, the pins `pins` have been read, and the loop
of `writeKeys` has visited its first `k` keys. -/
def stateBeforeKey (s : Synth) (scans : List (Fin (matrix1 * matrix2) → Bool))
    (pins : Fin (matrix1 * matrix2) → Bool) (k : Nat) : Synth :=
  (writeKeysLoop (keyIndices.take k) (readKeys (runScans s scans) pins)).1

/-- The calls made by each of the four scans press `a`, press `b`, release `b`,
release `a`, started in state `s`. -/
def pressPressReleaseRelease (s : Synth) (a b : Fin (matrix1 * matrix2)) :
    List (List KeyEvent) :=
  let r1 := scanKeys s (keysDown [a])
  let r2 := scanKeys r1.1 (keysDown [a, b])
  let r3 := scanKeys r2.1 (keysDown [a])
  let r4 := scanKeys r3.1 (keysDown [])
  [r1.2, r2.2, r3.2, r4.2]

/-! ## Serial evaluation: the `String` operations used by `checkData` -/

/-- The buffer size `#define numChars 32`. -/
abbrev numChars : Nat := 32

/-- Modelled from the spec: the Arduino `String` class is library code outside
`src/`.  `indexOf s c` is `s.indexOf(c)`: the position of the first `c` in
`s`, or `-1` when there is none. -/
def indexOf : List Char → Char → Int
  | [], _ => -1
  | x :: xs, c => if x = c then 0 else
      if indexOf xs c = -1 then -1 else indexOf xs c + 1

/-- Modelled from the spec: the Arduino `String` class is library code outside
`src/`.  `substring s left right` is `s.substring(left, right)`: both bounds are
converted to `unsigned int`, swapped when `left > right`, the result is empty
when `left` is past the end, `right` is cut to the length, and the characters
at positions `left .. right - 1` are returned. -/
def substring (s : List Char) (left right : Int) : List Char :=
  let l := (left % 4294967296).toNat
  let r := (right % 4294967296).toNat
  let lo := if l > r then r else l
  let hi := if l > r then l else r
  if lo ≥ s.length then []
  else (s.drop lo).take ((if hi > s.length then s.length else hi) - lo)

/-- Modelled from the spec: the one-argument `s.substring(beginIndex)` of the
Arduino `String` class is `s.substring(beginIndex, s.length())`. -/
def substringFrom (s : List Char) (beginIndex : Int) : List Char :=
  substring s beginIndex s.length

/-- Modelled from the spec: `s.startsWith(pre)` of the Arduino `String` class. -/
def startsWith : List Char → List Char → Bool
  | _, [] => true
  | [], _ :: _ => false
  | x :: xs, p :: ps => x = p && startsWith xs ps

/-- The white-space characters that the C library's `atol` skips. -/
def isSpace (c : Char) : Bool :=
  c = ' ' || c = '\t' || c = '\n' || c = '\x0b' || c = '\x0c' || c = '\r'

/-- The value of a decimal digit character. -/
def digitValue (c : Char) : Option Nat :=
  if 48 ≤ c.toNat ∧ c.toNat ≤ 57 then some (c.toNat - 48) else none

/-- The number spelled by the leading decimal digits of `s`, continuing from
the value `acc` read so far. -/
def parseDigits : List Char → Nat → Nat
  | [], acc => acc
  | c :: cs, acc =>
    match digitValue c with
    | some d => parseDigits cs (acc * 10 + d)
    | none => acc

/-- The saturation of the C library's conversion to the 32-bit `long`. -/
def clampLong (x : Int) : Int :=
  if x > 2147483647 then 2147483647
  else if x < -2147483648 then -2147483648
  else x

/-- Modelled from the spec: `s.toInt()` of the Arduino `String` class, which is
the C library's `atol`: skip leading white space, read an optional sign and
the decimal digits that follow, stop at the first other character; no digits
give 0, and a value outside the 32-bit `long` saturates. -/
def toInt (s : List Char) : Int :=
  match s.dropWhile isSpace with
  | '-' :: cs => clampLong (-(parseDigits cs 0 : Int))
  | '+' :: cs => clampLong (parseDigits cs 0)
  | cs => clampLong (parseDigits cs 0)

/-! ## Serial evaluation: `checkData` -/

/-- The conversion of an `int` to `bool` in `STATE = val;`. -/
def intToBool (val : Int) : Bool := decide (val ≠ 0)

/-- The branches `if (valName == "NAME") { ... }` of `checkData`, in source
order, each with what it does to the globals.  A branch that only calls a
setter of a library object (oscillator table, portamento time, envelope level
or time, LFO frequency) leaves the globals as they are.  The name `OSC1_SEMI`
occurs twice, as in the source. -/
def scalarBranches : List (List Char × (Synth → Int → Synth)) :=
  [ ("OSC1_TABLE".toList, fun s _ => s),
    ("OSC2_TABLE".toList, fun s _ => s),
    ("LFO1_TABLE".toList, fun s _ => s),
    ("LFO2_TABLE".toList, fun s _ => s),
    ("SLIDETIME".toList, fun s _ => s),
    ("OCTAVE".toList, fun s val => { s with OCTAVE := val }),
    ("OSC1_OCT".toList, fun s val => { s with OSC1_OCT := val }),
    ("OSC1_SEMI".toList, fun s val => { s with OSC1_SEMI := val }),
    ("OSC1_LEVEL".toList, fun s val => { s with OSC1_LEVEL := val }),
    ("OSC1_FINE".toList, fun s val => { s with OSC1_FINE := val }),
    ("OSC2_OCT".toList, fun s val => { s with OSC2_OCT := val }),
    ("OSC1_SEMI".toList, fun s val => { s with OSC1_SEMI := val }),
    ("OSC2_LEVEL".toList, fun s val => { s with OSC2_LEVEL := val }),
    ("OSC2_FINE".toList, fun s val => { s with OSC2_FINE := val }),
    ("NOISE_LEVEL".toList, fun s val => { s with NOISE_LEVEL := val }),
    ("ENV1_AL".toList, fun s _ => s),
    ("ENV1_DL".toList, fun s _ => s),
    ("ENV1_SL".toList, fun s _ => s),
    ("ENV1_RL".toList, fun s _ => s),
    ("ENV1_A".toList, fun s _ => s),
    ("ENV1_D".toList, fun s _ => s),
    ("ENV1_S".toList, fun s _ => s),
    ("ENV1_R".toList, fun s _ => s),
    ("ENV2_STATE".toList, fun s val => { s with ENV2_STATE := intToBool val }),
    ("ENV2_AL".toList, fun s _ => s),
    ("ENV2_DL".toList, fun s _ => s),
    ("ENV2_SL".toList, fun s _ => s),
    ("ENV2_RL".toList, fun s _ => s),
    ("ENV2_A".toList, fun s _ => s),
    ("ENV2_D".toList, fun s _ => s),
    ("ENV2_S".toList, fun s _ => s),
    ("ENV2_R".toList, fun s _ => s),
    ("LFO1_STATE".toList, fun s val => { s with LFO1_STATE := intToBool val }),
    ("LFO1_FREQ".toList, fun s _ => s),
    ("LFO2_STATE".toList, fun s val => { s with LFO2_STATE := intToBool val }),
    ("LFO2_FREQ".toList, fun s _ => s),
    ("PREDISTAMOUNT".toList, fun s val => { s with PREDISTAMOUNT := val }),
    ("PREDISTMODE".toList, fun s val => { s with PREDISTMODE := val }),
    ("PREDISTSTATE".toList, fun s val => { s with PREDISTSTATE := intToBool val }),
    ("POSTDISTAMOUNT".toList, fun s val => { s with POSTDISTAMOUNT := val }),
    ("POSTDISTMODE".toList, fun s val => { s with POSTDISTMODE := val }),
    ("POSTDISTSTATE".toList, fun s val => { s with POSTDISTSTATE := intToBool val }),
    ("FILTERSTATE".toList, fun s val => { s with FILTERSTATE := val }),
    ("FILTERTYPE".toList, fun s val => { s with FILTERTYPE := val }),
    ("FILTERCUTOFF".toList, fun s val => { s with FILTERCUTOFF := val }),
    ("FILTERRESONANCE".toList, fun s val => { s with FILTERRESONANCE := val }) ]

/-- The scalar branches run in order: each `if (valName == name)` whose name
matches applies its effect. -/
def runScalarBranches (valName : List Char) (val : Int) :
    List (List Char × (Synth → Int → Synth)) → Synth → Synth
  | [], s => s
  | b :: bs, s => runScalarBranches valName val bs (if valName = b.1 then b.2 s val else s)

/-- The nine indexed families of `checkData`, one per route table. -/
inductive Family where
  | ENVVARNDX | ENVAMOUNT | ENVMODTYPE
  | LFO1VARNDX | LFO1AMOUNT | LFO1MODTYPE
  | LFO2VARNDX | LFO2AMOUNT | LFO2MODTYPE
  deriving DecidableEq, Repr

/-- The text that `message.startsWith(...)` tests for a family. -/
def Family.text : Family → List Char
  | .ENVVARNDX => "ENVVARNDX".toList
  | .ENVAMOUNT => "ENVAMOUNT_".toList
  | .ENVMODTYPE => "ENVMODTYPE".toList
  | .LFO1VARNDX => "LFO1VARNDX".toList
  | .LFO1AMOUNT => "LFO1AMOUNT_".toList
  | .LFO1MODTYPE => "LFO1MODTYPE".toList
  | .LFO2VARNDX => "LFO2VARNDX".toList
  | .LFO2AMOUNT => "LFO2AMOUNT_".toList
  | .LFO2MODTYPE => "LFO2MODTYPE".toList

/-- The route table a family writes. -/
def Family.table (f : Family) (s : Synth) : Fin numModValues → Int :=
  match f with
  | .ENVVARNDX => s.env2VarNdx
  | .ENVAMOUNT => s.env2Amount
  | .ENVMODTYPE => s.env2ModType
  | .LFO1VARNDX => s.LFO1VarNdx
  | .LFO1AMOUNT => s.LFO1Amount
  | .LFO1MODTYPE => s.LFO1ModType
  | .LFO2VARNDX => s.LFO2VarNdx
  | .LFO2AMOUNT => s.LFO2Amount
  | .LFO2MODTYPE => s.LFO2ModType

/-- The assignment `table[index] = val;` of a family's branch. -/
def Family.assign (f : Family) (s : Synth) (index : Fin numModValues) (val : Int) : Synth :=
  match f with
  | .ENVVARNDX => { s with env2VarNdx := setAt s.env2VarNdx index val }
  | .ENVAMOUNT => { s with env2Amount := setAt s.env2Amount index val }
  | .ENVMODTYPE => { s with env2ModType := setAt s.env2ModType index val }
  | .LFO1VARNDX => { s with LFO1VarNdx := setAt s.LFO1VarNdx index val }
  | .LFO1AMOUNT => { s with LFO1Amount := setAt s.LFO1Amount index val }
  | .LFO1MODTYPE => { s with LFO1ModType := setAt s.LFO1ModType index val }
  | .LFO2VARNDX => { s with LFO2VarNdx := setAt s.LFO2VarNdx index val }
  | .LFO2AMOUNT => { s with LFO2Amount := setAt s.LFO2Amount index val }
  | .LFO2MODTYPE => { s with LFO2ModType := setAt s.LFO2ModType index val }

/-- One branch `if (message.startsWith(...)) { if (colonIndex != -1) { ... } }`:
the index is `toInt` of the one character before the colon, and the entry is
written when `index >= 0 && index < numModValues`. -/
def familyBranch (f : Family) (message : List Char) (colonIndex val : Int) (s : Synth) : Synth :=
  if startsWith message f.text then
    if colonIndex ≠ -1 then
      let indexStr := substring message (colonIndex - 1) colonIndex
      let index := toInt indexStr
      if h : index ≥ 0 ∧ index < 9 then
        f.assign s ⟨index.toNat, by show index.toNat < 9; omega⟩ val
      else s
    else s
  else s

/-- The function `void checkData()` on `message = String(receivedChars)`.
When the message has no colon, `val` is not initialised; it is then never
read, and stands as 0 here. -/
def checkData (s : Synth) (message : List Char) : Synth :=
  let colonIndex := indexOf message ':'
  let valName := if colonIndex ≠ -1 then substring message 0 colonIndex else []
  let val := if colonIndex ≠ -1 then toInt (substringFrom message (colonIndex + 1)) else 0
  let s0 := runScalarBranches valName val scalarBranches s
  let s1 := familyBranch Family.ENVVARNDX message colonIndex val s0
  let s2 := familyBranch Family.ENVAMOUNT message colonIndex val s1
  let s3 := familyBranch Family.ENVMODTYPE message colonIndex val s2
  let s4 := familyBranch Family.LFO1VARNDX message colonIndex val s3
  let s5 := familyBranch Family.LFO1AMOUNT message colonIndex val s4
  let s6 := familyBranch Family.LFO1MODTYPE message colonIndex val s5
  let s7 := familyBranch Family.LFO2VARNDX message colonIndex val s6
  let s8 := familyBranch Family.LFO2AMOUNT message colonIndex val s7
  familyBranch Family.LFO2MODTYPE message colonIndex val s8

/-! ## Serial evaluation: `checkSerial` -/

/-- The buffer `receivedChars` and the `static` locals of `checkSerial`. -/
structure Receiver where
  receivedChars : Fin numChars → Char
  newData : Bool
  recvInProgress : Bool
  ndx : Nat

/-- The receiver between messages: nothing in progress, write index 0. -/
def Receiver.idle (r : Receiver) : Prop :=
  r.newData = false ∧ r.recvInProgress = false ∧ r.ndx = 0

instance (r : Receiver) : Decidable r.idle :=
  inferInstanceAs (Decidable (r.newData = false ∧ r.recvInProgress = false ∧ r.ndx = 0))

/-- The receiver after the static initialisers have run. -/
def Receiver.initial : Receiver where
  receivedChars := fun _ => Char.ofNat 0
  newData := false
  recvInProgress := false
  ndx := 0

/-- The characters of a buffer, in order. -/
def bufferList (buf : Fin numChars → Char) : List Char := (List.finRange numChars).map buf

/-- The value of `String(receivedChars)`: the characters before the first NUL. -/
def cString (buf : Fin numChars → Char) : List Char :=
  (bufferList buf).takeWhile fun c => decide (c ≠ Char.ofNat 0)

/-- The assignment `receivedChars[ndx] = c;`, when `ndx` is inside the buffer. -/
def storeChar (buf : Fin numChars → Char) (ndx : Nat) (c : Char) :
    Option (Fin numChars → Char) :=
  if h : ndx < numChars then some (setAt buf ⟨ndx, h⟩ c) else none

/-- The part of `checkSerial` under `if (Serial1.available() > 0 && newData == false)`:
`incoming` is the character `Serial1.read()` would return, if one is available. -/
def receiveChar (r : Receiver) (incoming : Option Char) : Option Receiver :=
  match incoming with
  | none => some r
  | some rc =>
    if r.newData = false then
      if r.recvInProgress = true then
        if rc ≠ '>' then
          (storeChar r.receivedChars r.ndx rc).map fun buf =>
            { r with
              receivedChars := buf
              ndx := if (r.ndx + 1) % 256 ≥ numChars then numChars - 1 else (r.ndx + 1) % 256 }
        else
          (storeChar r.receivedChars r.ndx (Char.ofNat 0)).map fun buf =>
            { r with
              receivedChars := buf
              recvInProgress := false
              ndx := 0
              newData := true }
      else if rc = '<' then some { r with recvInProgress := true }
      else some r
    else some r

/-- The function `void checkSerial()`: one call, on the incoming character if
there is one.  The result is the new receiver and globals, and the message
handed to `checkData` when it is called. -/
def checkSerial (r : Receiver) (s : Synth) (incoming : Option Char) :
    Option (Receiver × Synth × Option (List Char)) :=
  (receiveChar r incoming).map fun r1 =>
    if r1.newData = true then
      ({ r1 with newData := false }, checkData s (cString r1.receivedChars),
        some (cString r1.receivedChars))
    else ({ r1 with newData := false }, s, none)

/-- Successive calls of `checkSerial`, one incoming character per call; the
messages handed to `checkData` are collected in order. -/
def feedSerial : List Char → Receiver → Synth → Option (Receiver × Synth × List (List Char))
  | [], r, s => some (r, s, [])
  | c :: cs, r, s =>
    (checkSerial r s (some c)).bind fun p =>
      (feedSerial cs p.1 p.2.1).map fun q => (q.1, q.2.1, p.2.2.toList ++ q.2.2)

/-- A payload of a serial message: no end marker and no NUL in it. -/
def payloadChars (payload : List Char) : Prop :=
  ∀ c ∈ payload, c ≠ '>' ∧ c ≠ Char.ofNat 0

instance (payload : List Char) : Decidable (payloadChars payload) :=
  inferInstanceAs (Decidable (∀ c ∈ payload, c ≠ '>' ∧ c ≠ Char.ofNat 0))

/-! ## Serial evaluation: the text of a number -/

/-- The character of the decimal digit `d`. -/
def digitChar (d : Nat) : Char := Char.ofNat (48 + d)

/-- The decimal text of a natural number, most significant digit first. -/
def decimalNat (n : Nat) : List Char :=
  if n = 0 then ['0'] else (Nat.digits 10 n).reverse.map digitChar

/-- The decimal text of an integer, with a leading `-` when it is negative. -/
def decimal (v : Int) : List Char :=
  if v < 0 then '-' :: decimalNat v.natAbs else decimalNat v.natAbs

/-- The message `<family text><d>:<v>` of an indexed family. -/
def routeMessage (f : Family) (d : Fin numModValues) (v : Int) : List Char :=
  f.text ++ digitChar d.val :: ':' :: decimal v

/-- The message `<family text><c>:<value text>` of an indexed family, with any
character `c` before the colon. -/
def familyMessage (f : Family) (c : Char) (valueText : List Char) : List Char :=
  f.text ++ c :: ':' :: valueText

/-! ## Pitch: `detune` -/

/-- The function `float detune(float freq, int fine)`, over exact rational
arithmetic in place of floating point. -/
def detune (freq : ℚ) (fine : Int) : ℚ :=
  if fine > 0 then 0.0595 * freq * fine / 255
  else if fine < 0 then 0.0561 * freq * fine / 255
  else 0

/-! ## Effects: the multiplier of `distortion` -/

/-- The multiplier that `distortion` computes in `amount = 1 + amount / 51;`. -/
def distortionGain (amount : Int) : Int := wrap32 (1 + Int.tdiv amount 51)

/-- The receiver is inside a message whose payload so far is `q`: the write
index is `min |q| 31` and the buffer holds the first 31 characters of `q`
below it. -/
def receiving (r : Receiver) (q : List Char) : Prop :=
  r.newData = false ∧ r.recvInProgress = true ∧ r.ndx = min q.length 31
    ∧ (bufferList r.receivedChars).take r.ndx = q.take 31

/-- The state after the messages `ENVVARNDX0:9` and `ENV2_STATE:1` have been
handled from the initial state. -/
def targetNineExample : Synth :=
  checkData (checkData initial "ENVVARNDX0:9".toList) "ENV2_STATE:1".toList

/-! ## Control cycle: what `updateControl` publishes to the filter -/

/-- Modelled from the spec: the filter class is library code outside `src/`.
The declaration `MultiResonantFilter<uint8_t> filter` and its comment in the
source give the cutoff and resonance parameters the type `uint8_t`, so the
`int` arguments of `filter.setCutoffFreqAndResonance(modulatedValuesOutput[7],
modulatedValuesOutput[8])` in `updateControl` are reduced modulo 256. -/
def publishedFilterParams (s : Synth) : Int × Int :=
  (s.modulatedValuesOutput 7 % 256, s.modulatedValuesOutput 8 % 256)

/-- A state with base cutoff 0 and base resonance 5 in which the secondary
envelope (sample 255) is routed to target 7 and LFO1 (sample 127) to target 8,
both with amount -255 in mode 0, and both sources are enabled. -/
def negativeCutoffExample : Synth :=
  { initial with
    env2_now := 255
    LFO1_now := 127
    ENV2_STATE := true
    LFO1_STATE := true
    FILTERCUTOFF := 0
    FILTERRESONANCE := 5
    env2VarNdx := setAt initial.env2VarNdx 0 7
    env2Amount := setAt initial.env2Amount 0 (-255)
    LFO1VarNdx := setAt initial.LFO1VarNdx 0 8
    LFO1Amount := setAt initial.LFO1Amount 0 (-255) }

/-- The amounts of all three route tables lie in `[-255, 255]`. -/
def amountsInGuiRange (s : Synth) : Prop :=
  ∀ i, (-255 ≤ s.env2Amount i ∧ s.env2Amount i ≤ 255)
    ∧ (-255 ≤ s.LFO1Amount i ∧ s.LFO1Amount i ≤ 255)
    ∧ (-255 ≤ s.LFO2Amount i ∧ s.LFO2Amount i ≤ 255)

instance (s : Synth) : Decidable (amountsInGuiRange s) :=
  inferInstanceAs (Decidable (∀ i, (-255 ≤ s.env2Amount i ∧ s.env2Amount i ≤ 255)
    ∧ (-255 ≤ s.LFO1Amount i ∧ s.LFO1Amount i ≤ 255)
    ∧ (-255 ≤ s.LFO2Amount i ∧ s.LFO2Amount i ≤ 255)))

/-- A state with base noise level 0 whose effective noise level, entry 4 of
`modulatedValuesOutput`, is 255, as a route to target 4 leaves it. -/
def noiseRouteExample : Synth :=
  { initial with
    NOISE_LEVEL := 0
    modulatedValuesOutput := fun i => if i = 4 then 255 else if i = 0 then 255 else 0 }

/-- A state with base noise level 10 and effective noise level 200. -/
def noiseOnExample : Synth :=
  { initial with
    NOISE_LEVEL := 10
    modulatedValuesOutput := fun i => if i = 4 then 200 else if i = 0 then 255 else 0 }

/-- A state at the loud end of the ranges of C10: all effective levels 255, a
non-zero base noise level, the filter off, and both distortion stages enabled
in clip mode with amount 255. -/
def loudExample : Synth :=
  { initial with
    NOISE_LEVEL := 255
    PREDISTSTATE := true
    PREDISTAMOUNT := 255
    PREDISTMODE := 0
    POSTDISTSTATE := true
    POSTDISTAMOUNT := 255
    POSTDISTMODE := 0
    FILTERSTATE := 0
    modulatedValuesOutput := fun _ => 255 }

/-! # Theorems -/

/-! ## Machine-integer lemmas -/

theorem wrap32_inInt32 (x : Int) : inInt32 (wrap32 x) := by
  unfold inInt32 wrap32; omega

theorem wrap32_of_inInt32 {x : Int} (h : inInt32 x) : wrap32 x = x := by
  unfold inInt32 at h; unfold wrap32; omega

theorem tdiv_51_cases (a : Int) :
    (0 ≤ a ∧ Int.tdiv a 51 = a / 51) ∨ (a < 0 ∧ Int.tdiv a 51 = -((-a) / 51)) := by
  rcases le_or_lt 0 a with h | h
  · exact Or.inl ⟨h, Int.tdiv_eq_ediv h (by decide)⟩
  · refine Or.inr ⟨h, ?_⟩
    have h1 : Int.tdiv (-a) 51 = (-a) / 51 := Int.tdiv_eq_ediv (by omega) (by decide)
    rw [Int.neg_tdiv] at h1
    omega

/-- The multiplier `1 + amount / 51` of an `int` amount is itself an `int`. -/
theorem gain_inInt32 {amount : Int} (h : inInt32 amount) :
    inInt32 (1 + Int.tdiv amount 51) := by
  unfold inInt32 at *
  rcases tdiv_51_cases amount with ⟨h0, e⟩ | ⟨h0, e⟩ <;> rw [e] <;> omega

/-! ## Distortion -/

/-- The fold mode on a raw product that fits an `int`: one reflection at each
threshold. -/
theorem distortion_fold_eq {signal amount : Int} (ha : inInt32 amount)
    (hraw : inInt32 (signal * (1 + Int.tdiv amount 51))) :
    distortion signal amount true 1 =
      if signal * (1 + Int.tdiv amount 51) > 32768 then
        32768 - (signal * (1 + Int.tdiv amount 51) - 32768)
      else if signal * (1 + Int.tdiv amount 51) < -32768 then
        -32768 - (signal * (1 + Int.tdiv amount 51) + 32768)
      else signal * (1 + Int.tdiv amount 51) := by
  simp only [distortion, if_true, wrap32_of_inInt32 (gain_inInt32 ha)]
  rw [wrap32_of_inInt32 hraw]
  generalize signal * (1 + Int.tdiv amount 51) = r at hraw ⊢
  have h1 : wrap32 (r - 32768) = r - 32768 ∨ r ≤ 32768 := by
    unfold inInt32 at hraw; unfold wrap32; omega
  have h2 : wrap32 (r + 32768) = r + 32768 ∨ -32768 ≤ r := by
    unfold inInt32 at hraw; unfold wrap32; omega
  unfold inInt32 at hraw
  simp only [show (1 : Int) = 0 ↔ False by decide, if_false]
  split_ifs with a b
  · rcases h1 with h1 | h1
    · rw [h1]; unfold wrap32; omega
    · omega
  · rcases h2 with h2 | h2
    · rw [h2]; unfold wrap32; omega
    · omega
  · rfl

/-- C4. For every `signal` and `amount`, the clip mode of the enabled
distortion returns a value in `[-24500, 24500]`; the product is the 32-bit one,
so this holds also where `signal * gain` overflows. -/
theorem distortion_clip_bounded (signal amount : Int) :
    -24500 ≤ distortion signal amount true 0 ∧ distortion signal amount true 0 ≤ 24500 := by
  simp only [distortion, if_true]
  split_ifs <;> omega

/-- C5, as stated, fails: the 16-bit signal 32767 with amount 255 (gain 6) has
raw product 196602, and the single reflection returns -131066, below -32768. -/
theorem distortion_fold_escapes :
    distortion 32767 255 true 1 = -131066 ∧
      ¬ (-32768 ≤ distortion 32767 255 true 1 ∧ distortion 32767 255 true 1 ≤ 32768) := by
  decide

/-- C5, amended. For a 16-bit signal and an amount in `0..255`, the fold mode
returns a value in `[-32768, 32768]` exactly when the raw product
`signal * (1 + amount / 51)` lies in `[-98304, 98304]`, three times the fold
threshold; this is so for every amount up to 152 (gain at most 3). -/
theorem distortion_fold_in_range_iff (signal amount : Int)
    (hs : -32768 ≤ signal ∧ signal ≤ 32767) (ha : 0 ≤ amount ∧ amount ≤ 255) :
    (-32768 ≤ distortion signal amount true 1 ∧ distortion signal amount true 1 ≤ 32768
        ↔ -98304 ≤ signal * (1 + amount / 51) ∧ signal * (1 + amount / 51) ≤ 98304)
      ∧ (amount ≤ 152 →
        -32768 ≤ distortion signal amount true 1 ∧ distortion signal amount true 1 ≤ 32768) := by
  have e : Int.tdiv amount 51 = amount / 51 := Int.tdiv_eq_ediv ha.1 (by decide)
  have hlink : 51 * (amount / 51) ≤ amount ∧ amount < 51 * (amount / 51) + 51 := by omega
  have hraw : inInt32 (signal * (1 + Int.tdiv amount 51)) := by
    rw [e]; unfold inInt32
    generalize amount / 51 = g at *
    have g0 : 0 ≤ g := by omega
    have g5 : g ≤ 5 := by omega
    interval_cases g <;> omega
  rw [distortion_fold_eq (by unfold inInt32; omega) hraw, e]
  generalize amount / 51 = g at *
  have g0 : 0 ≤ g := by omega
  have g5 : g ≤ 5 := by omega
  interval_cases g <;> (split_ifs <;> omega)

theorem distortion_fold_in_range_iff_witness :
    ((-32768 ≤ distortion 20000 120 true 1 ∧ distortion 20000 120 true 1 ≤ 32768
        ↔ -98304 ≤ (20000 : Int) * (1 + 120 / 51) ∧ (20000 : Int) * (1 + 120 / 51) ≤ 98304)
      ∧ (-32768 ≤ distortion 32767 152 true 1 ∧ distortion 32767 152 true 1 ≤ 32768)) :=
  ⟨(distortion_fold_in_range_iff 20000 120 (by decide) (by decide)).1,
    (distortion_fold_in_range_iff 32767 152 (by decide) (by decide)).2 (by decide)⟩

/-- C6. When `signal`, `amount` and the raw product
`raw = signal * (1 + amount / 51)` are `int` values (no 32-bit overflow), the
fold mode returns `32768 - (raw - 32768)` for `raw > 32768`,
`-32768 - (raw + 32768)` for `raw < -32768`, and `raw` otherwise; hence, when
the negated signal and its raw product are `int` values too, the fold mode is
odd in the signal. -/
theorem distortion_fold_reflection (signal amount : Int) (ha : inInt32 amount)
    (hraw : inInt32 (signal * (1 + Int.tdiv amount 51))) :
    (signal * (1 + Int.tdiv amount 51) > 32768 →
        distortion signal amount true 1
          = 32768 - (signal * (1 + Int.tdiv amount 51) - 32768))
      ∧ (signal * (1 + Int.tdiv amount 51) < -32768 →
        distortion signal amount true 1
          = -32768 - (signal * (1 + Int.tdiv amount 51) + 32768))
      ∧ (-32768 ≤ signal * (1 + Int.tdiv amount 51) →
        signal * (1 + Int.tdiv amount 51) ≤ 32768 →
        distortion signal amount true 1 = signal * (1 + Int.tdiv amount 51))
      ∧ (inInt32 (-signal) → inInt32 (-signal * (1 + Int.tdiv amount 51)) →
        distortion (-signal) amount true 1 = -distortion signal amount true 1) := by
  have h := distortion_fold_eq ha hraw
  refine ⟨fun c => ?_, fun c => ?_, fun c1 c2 => ?_, fun _ hneg => ?_⟩
  · rw [h, if_pos c]
  · rw [h, if_neg (by omega), if_pos c]
  · rw [h, if_neg (by omega), if_neg (by omega)]
  · rw [h, distortion_fold_eq ha hneg]
    rw [neg_mul] at hneg ⊢
    generalize signal * (1 + Int.tdiv amount 51) = r at hraw hneg ⊢
    split_ifs <;> omega

theorem distortion_fold_reflection_witness :
    distortion 20000 120 true 1 = 32768 - (20000 * (1 + Int.tdiv 120 51) - 32768)
      ∧ distortion (-20000) 120 true 1
        = -32768 - (-20000 * (1 + Int.tdiv 120 51) + 32768)
      ∧ distortion 10000 120 true 1 = 10000 * (1 + Int.tdiv 120 51)
      ∧ distortion (-20000) 120 true 1 = -distortion 20000 120 true 1 :=
  ⟨(distortion_fold_reflection 20000 120 (by decide) (by decide)).1 (by decide),
    (distortion_fold_reflection (-20000) 120 (by decide) (by decide)).2.1 (by decide),
    (distortion_fold_reflection 10000 120 (by decide) (by decide)).2.2.1 (by decide)
      (by decide),
    (distortion_fold_reflection 20000 120 (by decide) (by decide)).2.2.2 (by decide)
      (by decide)⟩

theorem wrap32_wrap32_add (x y : Int) : wrap32 (wrap32 x + y) = wrap32 (x + y) := by
  unfold wrap32; omega

theorem wrap32_add_three (x a b c : Int) :
    wrap32 (wrap32 (wrap32 (x + a) + b) + c) = wrap32 (x + (a + b + c)) := by
  unfold wrap32; omega

/-! ## Modulation matrix: the accumulation loop -/

theorem modIndex_of_valid {k : Int} (h : 0 ≤ k ∧ k ≤ 8) :
    ∃ t : Fin numModValues, modIndex k = some t ∧ (t.val : Int) = k := by
  have h2 : 0 ≤ k ∧ k < 9 := by omega
  refine ⟨⟨k.toNat, by show k.toNat < 9; omega⟩, ?_, ?_⟩
  · simp [modIndex, h2]
  · show ((k.toNat : Nat) : Int) = k
    omega

/-- One guarded route: either unbound, or a 32-bit `+=` on the target entry. -/
theorem route_step (en : Bool) (ndx out : Int) (m : Fin numModValues → Int)
    (hv : en = true → (ndx = -1 ∨ (0 ≤ ndx ∧ ndx ≤ 8))) (hm : ∀ t, inInt32 (m t)) :
    ∃ m2, (if en = true then (if ndx ≠ -1 then addModValue m ndx out else some m) else some m)
        = some m2
      ∧ (∀ t, inInt32 (m2 t))
      ∧ ∀ t : Fin numModValues,
          m2 t = wrap32 (m t + if en = true ∧ ndx = (t.val : Int) then out else 0) := by
  have keep : ∀ t, m t = wrap32 (m t + 0) := fun t => by
    rw [add_zero, wrap32_of_inInt32 (hm t)]
  cases en with
  | false => exact ⟨m, by simp, hm, fun t => by simpa using keep t⟩
  | true =>
    rcases hv rfl with h | h
    · refine ⟨m, by simp [h], hm, fun t => ?_⟩
      have : ndx ≠ (t.val : Int) := by omega
      simpa [this] using keep t
    · obtain ⟨k, hk, hkv⟩ := modIndex_of_valid h
      have hne : ndx ≠ -1 := by omega
      refine ⟨setAt m k (wrap32 (m k + out)), by simp [hne, addModValue, hk], fun t => ?_,
        fun t => ?_⟩
      · unfold setAt; split_ifs
        · exact wrap32_inInt32 _
        · exact hm t
      · unfold setAt
        by_cases htk : t = k
        · subst htk; simp [hkv]
        · have : ndx ≠ (t.val : Int) := by
            intro e; apply htk; apply Fin.ext; omega
          simpa [htk, this] using keep t

theorem env2Block_eq (s : Synth) (i : Fin numModValues) (m : Fin numModValues → Int) :
    env2Block s i m
      = if s.env2VarNdx i ≠ -1 then addModValue m (s.env2VarNdx i) (env2Output s i)
        else some m := by
  unfold env2Block env2Output; split_ifs <;> rfl

theorem lfoBlock_eq (now : Int) (varNdx amount modType : Fin numModValues → Int)
    (i : Fin numModValues) (m : Fin numModValues → Int) :
    lfoBlock now varNdx amount modType i m
      = if varNdx i ≠ -1 then addModValue m (varNdx i) (lfoOutput now amount modType i)
        else some m := by
  unfold lfoBlock lfoOutput; split_ifs <;> rfl

theorem modulatorBody_spec (s : Synth) (env2 lfo1 lfo2 : Bool)
    (hv : enabledTargetsValid s env2 lfo1 lfo2) (i : Fin numModValues)
    (m : Fin numModValues → Int) (hm : ∀ t, inInt32 (m t)) :
    ∃ m2, modulatorBody s env2 lfo1 lfo2 m i = some m2 ∧ (∀ t, inInt32 (m2 t))
      ∧ ∀ t, m2 t = wrap32 (m t + slotOutput s env2 lfo1 lfo2 t i) := by
  obtain ⟨a, ha, hai, hat⟩ := route_step env2 (s.env2VarNdx i) (env2Output s i) m
    (fun e => hv.1 e i) hm
  obtain ⟨b, hb, hbi, hbt⟩ := route_step lfo1 (s.LFO1VarNdx i)
    (lfoOutput s.LFO1_now s.LFO1Amount s.LFO1ModType i) a (fun e => hv.2.1 e i) hai
  obtain ⟨c, hc, hci, hct⟩ := route_step lfo2 (s.LFO2VarNdx i)
    (lfoOutput s.LFO2_now s.LFO2Amount s.LFO2ModType i) b (fun e => hv.2.2 e i) hbi
  refine ⟨c, ?_, hci, fun t => ?_⟩
  · unfold modulatorBody
    rw [env2Block_eq, ha, Option.some_bind, lfoBlock_eq, hb, Option.some_bind, lfoBlock_eq, hc]
  · rw [hct t, hbt t, hat t, wrap32_add_three]
    rfl

theorem modulatorLoop_spec (s : Synth) (env2 lfo1 lfo2 : Bool)
    (hv : enabledTargetsValid s env2 lfo1 lfo2) (l : List (Fin numModValues)) :
    ∀ m : Fin numModValues → Int, (∀ t, inInt32 (m t)) →
      ∃ m2, modulatorLoop s env2 lfo1 lfo2 l m = some m2 ∧ (∀ t, inInt32 (m2 t))
        ∧ ∀ t, m2 t = wrap32 (m t + (l.map (slotOutput s env2 lfo1 lfo2 t)).sum) := by
  induction l with
  | nil =>
    intro m hm
    exact ⟨m, rfl, hm, fun t => by simp [wrap32_of_inInt32 (hm t)]⟩
  | cons i l ih =>
    intro m hm
    obtain ⟨a, ha, hai, hat⟩ := modulatorBody_spec s env2 lfo1 lfo2 hv i m hm
    obtain ⟨b, hb, hbi, hbt⟩ := ih a hai
    refine ⟨b, by simp [modulatorLoop, ha, hb], hbi, fun t => ?_⟩
    rw [hbt t, hat t, wrap32_wrap32_add, List.map_cons, List.sum_cons, add_assoc]

/-! ## Modulation matrix: the claims -/

theorem clampFinal_eq_clamp255 (x : Int) : clampFinal x = clamp255 x := by
  unfold clampFinal clamp255; split_ifs <;> omega

theorem clampFinal_bounds (x : Int) : -255 ≤ clampFinal x ∧ clampFinal x ≤ 255 := by
  unfold clampFinal; split_ifs <;> omega

/-- With usable targets `modulator` returns, and its accumulator is the 32-bit
sum of the slot outputs. -/
theorem modulator_spec (s : Synth) (env2 lfo1 lfo2 : Bool)
    (hv : enabledTargetsValid s env2 lfo1 lfo2) :
    ∃ mv : Fin numModValues → Int,
      modulator s env2 lfo1 lfo2 = some { s with
        modValues := mv
        modulatedValuesOutput := fun i => clampFinal (wrap32 (ptrModValues s i + mv i)) }
      ∧ ∀ t, mv t
        = wrap32 (((List.finRange numModValues).map (slotOutput s env2 lfo1 lfo2 t)).sum) := by
  obtain ⟨mv, h1, _, h3⟩ := modulatorLoop_spec s env2 lfo1 lfo2 hv (List.finRange numModValues)
    (fun _ => 0) (fun _ => (by decide : inInt32 0))
  refine ⟨mv, by simp [modulator, h1], fun t => ?_⟩
  rw [h3 t, zero_add]

theorem product_bound {x a : Int} (hx : -255 ≤ x ∧ x ≤ 255)
    (ha : -8388608 ≤ a ∧ a ≤ 8388608) :
    -2139095040 ≤ x * a ∧ x * a ≤ 2139095040 := by
  have hx2 : |x| ≤ 255 := abs_le.mpr hx
  have ha2 : |a| ≤ 8388608 := abs_le.mpr ha
  have h : |x * a| ≤ 255 * 8388608 := by
    rw [abs_mul]; exact mul_le_mul hx2 ha2 (abs_nonneg _) (by norm_num)
  have h2 := abs_le.mp h
  constructor <;> omega

/-- A scaled product `(x * a) >> 8` without overflow is the floored quotient,
and is small. -/
theorem scaled_product {x a : Int} (hx : -255 ≤ x ∧ x ≤ 255)
    (ha : -8388608 ≤ a ∧ a ≤ 8388608) :
    wrap32 (x * a) >>> (8 : Nat) = x * a / 256
      ∧ -8355840 ≤ x * a / 256 ∧ x * a / 256 ≤ 8355840 := by
  have hb := product_bound hx ha
  have hw : wrap32 (x * a) = x * a := wrap32_of_inInt32 (by unfold inInt32; omega)
  rw [hw, Int.shiftRight_eq_div_pow]
  refine ⟨by norm_num, ?_⟩
  generalize x * a = p at hb
  omega

theorem env2Output_eq (s : Synth) (hs : sourcesInRange s) (ha : amountsBounded s)
    (i : Fin numModValues) :
    env2Output s i = envContribution s.env2_now (s.env2Amount i) (s.env2ModType i)
      ∧ -8355840 ≤ env2Output s i ∧ env2Output s i ≤ 8355840 := by
  obtain ⟨h0, _, _⟩ := hs
  have hw : wrap32 (s.env2_now - 128) = s.env2_now - 128 :=
    wrap32_of_inInt32 (by unfold inInt32; omega)
  unfold env2Output envContribution
  split_ifs
  · have h := scaled_product (x := s.env2_now) (by omega) (ha i).1
    rw [h.1]; exact ⟨rfl, h.2⟩
  · have h := scaled_product (x := s.env2_now - 128) (by omega) (ha i).1
    rw [hw, h.1]; exact ⟨rfl, h.2⟩

theorem lfoOutput_eq {now : Int} (hn : -128 ≤ now ∧ now ≤ 127)
    (amount modType : Fin numModValues → Int) (i : Fin numModValues)
    (ha : -8388608 ≤ amount i ∧ amount i ≤ 8388608) :
    lfoOutput now amount modType i = lfoContribution now (amount i) (modType i)
      ∧ -8355840 ≤ lfoOutput now amount modType i
      ∧ lfoOutput now amount modType i ≤ 8355840 := by
  have hw : wrap32 (now + 128) = now + 128 := wrap32_of_inInt32 (by unfold inInt32; omega)
  unfold lfoOutput lfoContribution
  split_ifs
  · have h := scaled_product (x := now + 128) (by omega) ha
    rw [hw, h.1]; exact ⟨rfl, h.2⟩
  · have h := scaled_product (x := now) (by omega) ha
    rw [h.1]; exact ⟨rfl, h.2⟩

theorem slotOutput_eq (s : Synth) (env2 lfo1 lfo2 : Bool) (hs : sourcesInRange s)
    (ha : amountsBounded s) (t i : Fin numModValues) :
    slotOutput s env2 lfo1 lfo2 t i = slotContribution s env2 lfo1 lfo2 t i
      ∧ -25067520 ≤ slotContribution s env2 lfo1 lfo2 t i
      ∧ slotContribution s env2 lfo1 lfo2 t i ≤ 25067520 := by
  have h0 := env2Output_eq s hs ha i
  have h1 := lfoOutput_eq hs.2.1 s.LFO1Amount s.LFO1ModType i (ha i).2.1
  have h2 := lfoOutput_eq hs.2.2 s.LFO2Amount s.LFO2ModType i (ha i).2.2
  unfold slotOutput slotContribution
  rw [← h0.1, ← h1.1, ← h2.1]
  refine ⟨rfl, ?_⟩
  split_ifs <;> omega

theorem sum_map_bound {α : Type} (f g : α → Int) (c : Int)
    (h : ∀ a, f a = g a ∧ -c ≤ g a ∧ g a ≤ c) (l : List α) :
    (l.map f).sum = (l.map g).sum
      ∧ -(l.length * c) ≤ (l.map g).sum ∧ (l.map g).sum ≤ l.length * c := by
  induction l with
  | nil => simp
  | cons a l ih =>
    simp only [List.map_cons, List.sum_cons, List.length_cons, Nat.cast_add, Nat.cast_one]
    obtain ⟨e, lo, hi⟩ := h a
    obtain ⟨e2, lo2, hi2⟩ := ih
    refine ⟨by rw [e, e2], ?_, ?_⟩ <;> nlinarith

/-- C1, as stated, fails: with envelope sample 200 and amount 16777216 on slot 0
(target 0, absolute mode, base 0) every hypothesis of the claim holds, the
specified value is `clamp (0 + floor (200 * 16777216 / 256)) = 255`, and the
code stores -255, because the 32-bit product `200 * 16777216` is negative. -/
theorem modulator_overflow_diverges :
    sourcesInRange overflowExample ∧ validTargets overflowExample.env2VarNdx
      ∧ validTargets overflowExample.LFO1VarNdx ∧ validTargets overflowExample.LFO2VarNdx
      ∧ (modulator overflowExample true false false).map
          (fun s2 => s2.modulatedValuesOutput 0) = some (-255)
      ∧ effectiveValue overflowExample true false false 0 = 255 := by
  decide

/-- C1, amended. For an envelope sample in `0..255`, LFO samples in
`-128..127`, route tables whose targets are `-1` or in `0..8`, amounts in
`[-8388608, 8388608]` and base values in `[-1073741824, 1073741824]` (so that
no 32-bit operation overflows), `modulator` returns and every entry `t` of
`modulatedValuesOutput` is the clamp to `[-255, 255]` of the base value plus
the sum of the contributions of the enabled sources routed to `t`; the two
worked examples give 200 and 25. -/
theorem modulator_effective_value (s : Synth) (env2 lfo1 lfo2 : Bool)
    (hs : sourcesInRange s) (hv0 : validTargets s.env2VarNdx)
    (hv1 : validTargets s.LFO1VarNdx) (hv2 : validTargets s.LFO2VarNdx)
    (ha : amountsBounded s) (hb : basesBounded s) :
    (∃ s2, modulator s env2 lfo1 lfo2 = some s2
        ∧ ∀ t, s2.modulatedValuesOutput t = effectiveValue s env2 lfo1 lfo2 t)
      ∧ (modulator envRouteExample true false false).map
          (fun s2 => s2.modulatedValuesOutput 0) = some 200
      ∧ (modulator lfoRouteExample false true false).map
          (fun s2 => s2.modulatedValuesOutput 2) = some 25 := by
  refine ⟨?_, by decide, by decide⟩
  obtain ⟨mv, h1, h2⟩ := modulator_spec s env2 lfo1 lfo2 ⟨fun _ => hv0, fun _ => hv1, fun _ => hv2⟩
  refine ⟨_, h1, fun t => ?_⟩
  obtain ⟨e, lo, hi⟩ := sum_map_bound (slotOutput s env2 lfo1 lfo2 t)
    (slotContribution s env2 lfo1 lfo2 t) 25067520
    (fun i => slotOutput_eq s env2 lfo1 lfo2 hs ha t i) (List.finRange numModValues)
  rw [List.length_finRange] at lo hi
  have hb2 := hb t
  show clampFinal (wrap32 (ptrModValues s t + mv t)) = effectiveValue s env2 lfo1 lfo2 t
  rw [h2 t, e, clampFinal_eq_clamp255]
  unfold effectiveValue
  generalize ((List.finRange numModValues).map (slotContribution s env2 lfo1 lfo2 t)).sum = q
    at lo hi ⊢
  have hq : wrap32 q = q := wrap32_of_inInt32 (by unfold inInt32; push_cast at lo hi; omega)
  rw [hq, wrap32_of_inInt32 (by unfold inInt32; push_cast at lo hi; omega)]

theorem modulator_effective_value_witness :
    (∃ s2, modulator lfoRouteExample true true false = some s2
        ∧ ∀ t, s2.modulatedValuesOutput t = effectiveValue lfoRouteExample true true false t)
      ∧ (modulator envRouteExample true false false).map
          (fun s2 => s2.modulatedValuesOutput 0) = some 200
      ∧ (modulator lfoRouteExample false true false).map
          (fun s2 => s2.modulatedValuesOutput 2) = some 25 :=
  modulator_effective_value lfoRouteExample true true false (by decide) (by decide)
    (by decide) (by decide) (by decide) (by decide)

/-- C2. For all source samples, base values, amounts, modulation types and
enable flags, and route tables whose targets are `-1` or in `0..8`,
`modulator` returns and each of the nine entries of `modulatedValuesOutput`
lies in `[-255, 255]`. -/
theorem modulator_output_clamped (s : Synth) (env2 lfo1 lfo2 : Bool)
    (hv0 : validTargets s.env2VarNdx) (hv1 : validTargets s.LFO1VarNdx)
    (hv2 : validTargets s.LFO2VarNdx) :
    ∃ s2, modulator s env2 lfo1 lfo2 = some s2
      ∧ ∀ t, -255 ≤ s2.modulatedValuesOutput t ∧ s2.modulatedValuesOutput t ≤ 255 := by
  obtain ⟨mv, h1, _⟩ := modulator_spec s env2 lfo1 lfo2 ⟨fun _ => hv0, fun _ => hv1, fun _ => hv2⟩
  exact ⟨_, h1, fun t => clampFinal_bounds _⟩

theorem modulator_output_clamped_witness :
    ∃ s2, modulator overflowExample true true true = some s2
      ∧ ∀ t, -255 ≤ s2.modulatedValuesOutput t ∧ s2.modulatedValuesOutput t ≤ 255 :=
  modulator_output_clamped overflowExample true true true (by decide) (by decide) (by decide)

/-! ## Modulation matrix: disabled sources -/

/-- The loop reads a source's sample and tables only when the source is enabled. -/
theorem modulatorLoop_congr (s s2 : Synth) (env2 lfo1 lfo2 : Bool)
    (h : ∀ m i, modulatorBody s env2 lfo1 lfo2 m i = modulatorBody s2 env2 lfo1 lfo2 m i)
    (l : List (Fin numModValues)) :
    ∀ m, modulatorLoop s env2 lfo1 lfo2 l m = modulatorLoop s2 env2 lfo1 lfo2 l m := by
  induction l with
  | nil => intro m; rfl
  | cons i l ih =>
    intro m
    simp only [modulatorLoop, h m i]
    congr 1
    funext m2
    exact ih m2

theorem modulator_output_congr (s s2 : Synth) (env2 lfo1 lfo2 : Bool)
    (h : ∀ m i, modulatorBody s env2 lfo1 lfo2 m i = modulatorBody s2 env2 lfo1 lfo2 m i)
    (hp : ∀ i, ptrModValues s i = ptrModValues s2 i) :
    (modulator s env2 lfo1 lfo2).map (fun r => r.modulatedValuesOutput)
      = (modulator s2 env2 lfo1 lfo2).map (fun r => r.modulatedValuesOutput) := by
  unfold modulator
  rw [modulatorLoop_congr s s2 env2 lfo1 lfo2 h]
  simp only [Option.map_map]
  congr 1
  funext mv
  funext i
  simp only [Function.comp, hp i]

/-- C3. A disabled source contributes nothing: replacing the disabled source's
current sample and its three route tables by any others leaves what
`modulator` stores in `modulatedValuesOutput` unchanged (for each of the three
sources); and with all three sources disabled every entry is the clamp of
its base value. -/
theorem disabled_source_contributes_nothing (s : Synth)
    (hbase : ∀ i, inInt32 (ptrModValues s i)) :
    (∀ (lfo1 lfo2 : Bool) (now : Int) (varNdx amount modType : Fin numModValues → Int),
        (modulator (withEnv2 s now varNdx amount modType) false lfo1 lfo2).map
            (fun r => r.modulatedValuesOutput)
          = (modulator s false lfo1 lfo2).map (fun r => r.modulatedValuesOutput))
      ∧ (∀ (env2 lfo2 : Bool) (now : Int) (varNdx amount modType : Fin numModValues → Int),
        (modulator (withLFO1 s now varNdx amount modType) env2 false lfo2).map
            (fun r => r.modulatedValuesOutput)
          = (modulator s env2 false lfo2).map (fun r => r.modulatedValuesOutput))
      ∧ (∀ (env2 lfo1 : Bool) (now : Int) (varNdx amount modType : Fin numModValues → Int),
        (modulator (withLFO2 s now varNdx amount modType) env2 lfo1 false).map
            (fun r => r.modulatedValuesOutput)
          = (modulator s env2 lfo1 false).map (fun r => r.modulatedValuesOutput))
      ∧ (modulator s false false false).map (fun r => r.modulatedValuesOutput)
          = some (fun i => clamp255 (ptrModValues s i)) := by
  refine ⟨?_, ?_, ?_, ?_⟩
  · intro lfo1 lfo2 now varNdx amount modType
    exact modulator_output_congr _ _ _ _ _ (fun m i => rfl) (fun i => rfl)
  · intro env2 lfo2 now varNdx amount modType
    exact modulator_output_congr _ _ _ _ _ (fun m i => rfl) (fun i => rfl)
  · intro env2 lfo1 now varNdx amount modType
    exact modulator_output_congr _ _ _ _ _ (fun m i => rfl) (fun i => rfl)
  · obtain ⟨mv, h1, h2⟩ := modulator_spec s false false false
      ⟨fun e => Bool.noConfusion e, fun e => Bool.noConfusion e, fun e => Bool.noConfusion e⟩
    rw [h1]
    simp only [Option.map_some']
    congr 1
    funext i
    have hz : ∀ l : List (Fin numModValues),
        (l.map (slotOutput s false false false i)).sum = 0 := by
      intro l
      induction l with
      | nil => rfl
      | cons a l ih => simp [slotOutput, ih]
    rw [h2 i, hz, clampFinal_eq_clamp255]
    show clamp255 (wrap32 (ptrModValues s i + wrap32 0)) = _
    rw [show wrap32 0 = 0 by decide, add_zero, wrap32_of_inInt32 (hbase i)]

theorem disabled_source_contributes_nothing_witness :
    (∀ (lfo1 lfo2 : Bool) (now : Int) (varNdx amount modType : Fin numModValues → Int),
        (modulator (withEnv2 envRouteExample now varNdx amount modType) false lfo1 lfo2).map
            (fun r => r.modulatedValuesOutput)
          = (modulator envRouteExample false lfo1 lfo2).map (fun r => r.modulatedValuesOutput))
      ∧ (∀ (env2 lfo2 : Bool) (now : Int) (varNdx amount modType : Fin numModValues → Int),
        (modulator (withLFO1 envRouteExample now varNdx amount modType) env2 false lfo2).map
            (fun r => r.modulatedValuesOutput)
          = (modulator envRouteExample env2 false lfo2).map (fun r => r.modulatedValuesOutput))
      ∧ (∀ (env2 lfo1 : Bool) (now : Int) (varNdx amount modType : Fin numModValues → Int),
        (modulator (withLFO2 envRouteExample now varNdx amount modType) env2 lfo1 false).map
            (fun r => r.modulatedValuesOutput)
          = (modulator envRouteExample env2 lfo1 false).map (fun r => r.modulatedValuesOutput))
      ∧ (modulator envRouteExample false false false).map (fun r => r.modulatedValuesOutput)
          = some (fun i => clamp255 (ptrModValues envRouteExample i)) :=
  disabled_source_contributes_nothing envRouteExample (by decide)

/-! ## Audio chain -/

theorem mul_bounds {x y a b : Int} (hx : -a ≤ x ∧ x ≤ a) (hy : -b ≤ y ∧ y ≤ b) :
    -(a * b) ≤ x * y ∧ x * y ≤ a * b := by
  have hx2 : |x| ≤ a := abs_le.mpr hx
  have hy2 : |y| ≤ b := abs_le.mpr hy
  have ha : 0 ≤ a := le_trans (abs_nonneg x) hx2
  have h : |x * y| ≤ a * b := by
    rw [abs_mul]; exact mul_le_mul hx2 hy2 (abs_nonneg _) ha
  exact abs_le.mp h

theorem shiftRight_eq_div (x : Int) :
    x >>> (8 : Nat) = x / 256 ∧ x >>> (3 : Nat) = x / 8 ∧ x >>> (2 : Nat) = x / 4 := by
  refine ⟨?_, ?_, ?_⟩ <;> rw [Int.shiftRight_eq_div_pow] <;> norm_num

/-- A distortion stage that is off, or on in clip mode, keeps a signal inside
the clip range there. -/
theorem distortion_stage_bounds (x amount mode : Int) (en : Bool)
    (h : en = false ∨ mode = 0) (hx : -24500 ≤ x ∧ x ≤ 24500) :
    -24500 ≤ distortion x amount en mode ∧ distortion x amount en mode ≤ 24500 := by
  cases en with
  | false => simpa [distortion] using hx
  | true =>
    rcases h with h | h
    · exact Bool.noConfusion h
    · subst h
      simp only [distortion, if_true]
      split_ifs <;> omega

/-- C7 fails on the code.  In `distRouteExample`, after `modulator` the
effective pre-filter amount `modulatedValuesOutput[5]` is 255 while the base
`PREDISTAMOUNT` is 0; `updateAudio` on envelope 255 and oscillator sample 100
emits 9466, the sample at gain 1 (base amount), not 24500, which the amount
255 gives; and overwriting entries 5 and 6 of `modulatedValuesOutput` never
changes what `updateAudio` emits. -/
theorem updateAudio_ignores_modulated_distortion :
    (modulator distRouteExample true false false).map
        (fun s2 => (s2.modulatedValuesOutput 5, s2.PREDISTAMOUNT,
          (updateAudio s2 255 100 0 0 silentFilter).2,
          distortion 9466 (s2.modulatedValuesOutput 5) true 0))
        = some (255, 0, (9466, 9466), 24500)
      ∧ ∀ (s : Synth) (v5 v6 env1next osc1next osc2next noiseNext : Int)
          (filter : Int → FilterOut),
          (updateAudio
              { s with modulatedValuesOutput := setAt (setAt s.modulatedValuesOutput 5 v5) 6 v6 }
              env1next osc1next osc2next noiseNext filter).2
            = (updateAudio s env1next osc1next osc2next noiseNext filter).2 := by
  refine ⟨by decide, ?_⟩
  intro s v5 v6 env1next osc1next osc2next noiseNext filter
  rfl

/-- C10. With envelope sample in `0..255`, oscillator and noise samples in
`-128..127`, effective levels in `[-255, 255]`, the filter off and each
distortion stage off or in clip mode with amount in `0..255`, the sample
`updateAudio` stores in `outputSignal` lies in `[-32768, 32767]`, and both
channels handed to `from16Bit` carry that value. -/
theorem updateAudio_fits_int16 (s : Synth) (env1next osc1next osc2next noiseNext : Int)
    (filter : Int → FilterOut)
    (h : audioInputsInRange s env1next osc1next osc2next noiseNext) :
    -32768 ≤ (updateAudio s env1next osc1next osc2next noiseNext filter).1.outputSignal
      ∧ (updateAudio s env1next osc1next osc2next noiseNext filter).1.outputSignal ≤ 32767
      ∧ (updateAudio s env1next osc1next osc2next noiseNext filter).2
        = ((updateAudio s env1next osc1next osc2next noiseNext filter).1.outputSignal,
           (updateAudio s env1next osc1next osc2next noiseNext filter).1.outputSignal) := by
  obtain ⟨he, h1, h2, hn, hm0, hm2, hm4, hf, hpre, hpost⟩ := h
  have p1 := mul_bounds (a := 128) (b := 255) (x := osc1next) (by omega) hm0
  have p2 := mul_bounds (a := 128) (b := 255) (x := osc2next) (by omega) hm2
  have w1 : wrap32 (osc1next * s.modulatedValuesOutput 0)
      = osc1next * s.modulatedValuesOutput 0 := wrap32_of_inInt32 (by unfold inInt32; omega)
  have w2 : wrap32 (osc2next * s.modulatedValuesOutput 2)
      = osc2next * s.modulatedValuesOutput 2 := wrap32_of_inInt32 (by unfold inInt32; omega)
  have w3 : wrap32 (osc1next * s.modulatedValuesOutput 0 + osc2next * s.modulatedValuesOutput 2)
      = osc1next * s.modulatedValuesOutput 0 + osc2next * s.modulatedValuesOutput 2 :=
    wrap32_of_inInt32 (by unfold inInt32; omega)
  simp only [updateAudio, hf, w1, w2, w3, ne_eq, not_true_eq_false, if_false, and_true,
    (shiftRight_eq_div _).1, (shiftRight_eq_div _).2.1, (shiftRight_eq_div _).2.2]
  have hsum : -65280 ≤ osc1next * s.modulatedValuesOutput 0 + osc2next * s.modulatedValuesOutput 2
      ∧ osc1next * s.modulatedValuesOutput 0 + osc2next * s.modulatedValuesOutput 2 ≤ 65280 := by
    omega
  generalize osc1next * s.modulatedValuesOutput 0 + osc2next * s.modulatedValuesOutput 2 = sum
    at hsum ⊢
  have hmix : -255 ≤ sum / 256 ∧ sum / 256 ≤ 255 := by omega
  have pe := mul_bounds (a := 255) (b := 255) (x := env1next) (by omega) hmix
  have we : wrap32 (env1next * (sum / 256)) = env1next * (sum / 256) :=
    wrap32_of_inInt32 (by unfold inInt32; omega)
  have we3 : wrap32 (env1next * (sum / 256) * 3) = env1next * (sum / 256) * 3 :=
    wrap32_of_inInt32 (by unfold inInt32; omega)
  rw [we, we3]
  have hsig0 : -24500 ≤ env1next * (sum / 256) * 3 / 8
      ∧ env1next * (sum / 256) * 3 / 8 ≤ 24500 := by
    generalize env1next * (sum / 256) = e at pe
    omega
  have d1 := distortion_stage_bounds _ s.PREDISTAMOUNT s.PREDISTMODE s.PREDISTSTATE
    (hpre.imp id And.left) hsig0
  have d2 := distortion_stage_bounds _ s.POSTDISTAMOUNT s.POSTDISTMODE s.POSTDISTSTATE
    (hpost.imp id And.left) d1
  generalize distortion (distortion (env1next * (sum / 256) * 3 / 8) s.PREDISTAMOUNT
    s.PREDISTSTATE s.PREDISTMODE) s.POSTDISTAMOUNT s.POSTDISTSTATE s.POSTDISTMODE = d at d2 ⊢
  have pn := mul_bounds (a := 255) (b := 128) (x := env1next) (y := noiseNext)
    (by omega) (by omega)
  have wn : wrap32 (env1next * noiseNext) = env1next * noiseNext :=
    wrap32_of_inInt32 (by unfold inInt32; omega)
  have pn2 := mul_bounds (a := 255 * 128) (b := 255) pn hm4
  have wn2 : wrap32 (env1next * noiseNext * s.modulatedValuesOutput 4)
      = env1next * noiseNext * s.modulatedValuesOutput 4 :=
    wrap32_of_inInt32 (by unfold inInt32; omega)
  rw [wn, wn2]
  generalize env1next * noiseNext * s.modulatedValuesOutput 4 = n at pn2 ⊢
  have hn2 : -8129 ≤ n / 256 / 4 ∧ n / 256 / 4 ≤ 8128 := by omega
  have wo : wrap32 (d + n / 256 / 4) = d + n / 256 / 4 :=
    wrap32_of_inInt32 (by unfold inInt32; omega)
  rw [wo]
  split_ifs <;> omega

theorem updateAudio_fits_int16_witness :
    ((updateAudio loudExample 255 127 127 127 silentFilter).1.outputSignal = 32564
        ∧ (updateAudio loudExample 255 (-128) (-128) (-128) silentFilter).1.outputSignal
          = -32629)
      ∧ (-32768 ≤ (updateAudio loudExample 255 127 127 127 silentFilter).1.outputSignal
        ∧ (updateAudio loudExample 255 127 127 127 silentFilter).1.outputSignal ≤ 32767
        ∧ (updateAudio loudExample 255 127 127 127 silentFilter).2
          = ((updateAudio loudExample 255 127 127 127 silentFilter).1.outputSignal,
             (updateAudio loudExample 255 127 127 127 silentFilter).1.outputSignal))
      ∧ (-32768
          ≤ (updateAudio loudExample 255 (-128) (-128) (-128) silentFilter).1.outputSignal
        ∧ (updateAudio loudExample 255 (-128) (-128) (-128) silentFilter).1.outputSignal
          ≤ 32767
        ∧ (updateAudio loudExample 255 (-128) (-128) (-128) silentFilter).2
          = ((updateAudio loudExample 255 (-128) (-128) (-128) silentFilter).1.outputSignal,
             (updateAudio loudExample 255 (-128) (-128) (-128) silentFilter).1.outputSignal)) :=
  ⟨by decide,
    updateAudio_fits_int16 loudExample 255 127 127 127 silentFilter (by decide),
    updateAudio_fits_int16 loudExample 255 (-128) (-128) (-128) silentFilter (by decide)⟩

/-! ## Keyboard: one iteration of `writeKeys` -/

theorem writeKeysBody_idle (s : Synth) (i : Fin (matrix1 * matrix2))
    (h : s.requestState i = s.currentState i) : writeKeysBody s i = (s, []) := by
  unfold writeKeysBody
  cases hc : s.currentState i <;> simp [h, hc]

theorem writeKeysBody_press (s : Synth) (i : Fin (matrix1 * matrix2))
    (hr : s.requestState i = true) (hc : s.currentState i = false) :
    writeKeysBody s i
      = ({ s with
            currentState := setAt s.currentState i true
            numVoices := (s.numVoices + 1) % 256 },
          [KeyEvent.noteOn (noteOfKey i)]) := by
  unfold writeKeysBody
  simp [hr, hc]

theorem writeKeysBody_release (s : Synth) (i : Fin (matrix1 * matrix2))
    (hr : s.requestState i = false) (hc : s.currentState i = true) :
    writeKeysBody s i
      = ({ s with
            currentState := setAt s.currentState i false
            numVoices := (s.numVoices + 255) % 256 },
          if (s.numVoices + 255) % 256 = 0 then [KeyEvent.noteOff] else []) := by
  unfold writeKeysBody
  simp [hr, hc]

theorem writeKeysBody_frame (s : Synth) (i : Fin (matrix1 * matrix2)) :
    (writeKeysBody s i).1.requestState = s.requestState
      ∧ ∀ j, j ≠ i → (writeKeysBody s i).1.currentState j = s.currentState j := by
  cases hr : s.requestState i <;> cases hc : s.currentState i
  · rw [writeKeysBody_idle s i (by rw [hr, hc])]; exact ⟨rfl, fun _ _ => rfl⟩
  · rw [writeKeysBody_release s i hr hc]
    exact ⟨rfl, fun j hj => by simp [setAt, hj]⟩
  · rw [writeKeysBody_press s i hr hc]
    exact ⟨rfl, fun j hj => by simp [setAt, hj]⟩
  · rw [writeKeysBody_idle s i (by rw [hr, hc])]; exact ⟨rfl, fun _ _ => rfl⟩

/-- A scan over keys none of which changed does nothing. -/
theorem writeKeysLoop_idle (l : List (Fin (matrix1 * matrix2))) (s : Synth)
    (h : ∀ j ∈ l, s.requestState j = s.currentState j) : writeKeysLoop l s = (s, []) := by
  induction l with
  | nil => rfl
  | cons i l ih =>
    have hi := writeKeysBody_idle s i (h i (List.mem_cons_self _ _))
    simp only [writeKeysLoop, hi]
    rw [ih (fun j hj => h j (List.mem_cons_of_mem _ hj))]
    rfl

/-- A scan in which only key `a` changed is the iteration for key `a`. -/
theorem writeKeysLoop_single (a : Fin (matrix1 * matrix2)) (l : List (Fin (matrix1 * matrix2))) :
    ∀ s : Synth, l.Nodup → a ∈ l → (∀ j ∈ l, j ≠ a → s.requestState j = s.currentState j) →
      writeKeysLoop l s = writeKeysBody s a := by
  induction l with
  | nil => intro s _ ha; exact absurd ha (List.not_mem_nil _)
  | cons i l ih =>
    intro s hnd ha h
    obtain ⟨hil, hnd2⟩ := List.nodup_cons.mp hnd
    by_cases hia : i = a
    · subst hia
      obtain ⟨fr, fc⟩ := writeKeysBody_frame s i
      have hrest : writeKeysLoop l (writeKeysBody s i).1 = ((writeKeysBody s i).1, []) := by
        apply writeKeysLoop_idle
        intro j hj
        have hji : j ≠ i := fun e => hil (e ▸ hj)
        rw [fr, fc j hji]
        exact h j (List.mem_cons_of_mem _ hj) hji
      simp only [writeKeysLoop, hrest, List.append_nil]
    · have hi := writeKeysBody_idle s i (h i (List.mem_cons_self _ _) hia)
      have ha2 : a ∈ l := by
        rcases List.mem_cons.mp ha with e | e
        · exact absurd e.symm hia
        · exact e
      simp only [writeKeysLoop, hi, List.nil_append]
      exact ih s hnd2 ha2 (fun j hj => h j (List.mem_cons_of_mem _ hj))

theorem keyIndices_nodup : keyIndices.Nodup := by decide

theorem mem_keyIndices (j : Fin (matrix1 * matrix2)) : j ∈ keyIndices ↔ 3 ≤ j.val := by
  revert j; decide

/-! ## Keyboard: scans with one changed key -/

theorem scanKeys_press (s : Synth) (pins : Fin (matrix1 * matrix2) → Bool)
    (a : Fin (matrix1 * matrix2)) (ha : 3 ≤ a.val) (hr : pins a = true)
    (hc : s.currentState a = false)
    (ho : ∀ j, 3 ≤ j.val → j ≠ a → pins j = s.currentState j) :
    scanKeys s pins
      = ({ s with
            requestState := pins
            currentState := setAt s.currentState a true
            numVoices := (s.numVoices + 1) % 256 },
          [KeyEvent.noteOn (noteOfKey a)]) := by
  unfold scanKeys writeKeys
  rw [writeKeysLoop_single a keyIndices (readKeys s pins) keyIndices_nodup
    ((mem_keyIndices a).mpr ha) (fun j hj hja => ho j ((mem_keyIndices j).mp hj) hja)]
  rw [writeKeysBody_press (readKeys s pins) a hr hc]
  rfl

theorem scanKeys_release (s : Synth) (pins : Fin (matrix1 * matrix2) → Bool)
    (a : Fin (matrix1 * matrix2)) (ha : 3 ≤ a.val) (hr : pins a = false)
    (hc : s.currentState a = true)
    (ho : ∀ j, 3 ≤ j.val → j ≠ a → pins j = s.currentState j) :
    scanKeys s pins
      = ({ s with
            requestState := pins
            currentState := setAt s.currentState a false
            numVoices := (s.numVoices + 255) % 256 },
          if (s.numVoices + 255) % 256 = 0 then [KeyEvent.noteOff] else []) := by
  unfold scanKeys writeKeys
  rw [writeKeysLoop_single a keyIndices (readKeys s pins) keyIndices_nodup
    ((mem_keyIndices a).mpr ha) (fun j hj hja => ho j ((mem_keyIndices j).mp hj) hja)]
  rw [writeKeysBody_release (readKeys s pins) a hr hc]
  rfl

/-- The calls of the four scans press `a`, press `b`, release `b`, release `a`,
started with no key held. -/
theorem pressPressReleaseRelease_eq (s : Synth) (h0 : noKeyHeld s)
    (a b : Fin (matrix1 * matrix2)) (ha : 3 ≤ a.val) (hb : 3 ≤ b.val) (hab : a ≠ b) :
    pressPressReleaseRelease s a b
      = [[KeyEvent.noteOn (noteOfKey a)], [KeyEvent.noteOn (noteOfKey b)], [],
          [KeyEvent.noteOff]] := by
  unfold pressPressReleaseRelease
  simp only []
  obtain ⟨hc, hn⟩ := h0
  have hba : b ≠ a := fun e => hab e.symm
  have e1 := scanKeys_press s (keysDown [a]) a ha (by simp [keysDown]) (hc a)
    (fun j _ hj => by simp [keysDown, hj, hc j])
  rw [e1]
  have e2 := scanKeys_press
    { s with
      requestState := keysDown [a]
      currentState := setAt s.currentState a true
      numVoices := (s.numVoices + 1) % 256 }
    (keysDown [a, b]) b hb (by simp [keysDown]) (by simp [setAt, hba, hc b])
    (fun j _ hj => by by_cases hja : j = a <;> simp [keysDown, setAt, hj, hja, hc j])
  rw [e2]
  have e3 := scanKeys_release
    { s with
      requestState := keysDown [a, b]
      currentState := setAt (setAt s.currentState a true) b true
      numVoices := ((s.numVoices + 1) % 256 + 1) % 256 }
    (keysDown [a]) b hb (by simp [keysDown, hba]) (by simp [setAt])
    (fun j _ hj => by by_cases hja : j = a <;> simp [keysDown, setAt, hj, hja, hc j])
  rw [e3]
  have e4 := scanKeys_release
    { s with
      requestState := keysDown [a]
      currentState := setAt (setAt (setAt s.currentState a true) b true) b false
      numVoices := (((s.numVoices + 1) % 256 + 1) % 256 + 255) % 256 }
    (keysDown []) a ha (by simp [keysDown]) (by simp [setAt, hab])
    (fun j _ hj => by by_cases hjb : j = b <;> simp [keysDown, setAt, hj, hjb, hc j])
  rw [e4]
  simp [hn]

/-! ## Keyboard: the voice counter -/

theorem heldCount_le (c : Fin (matrix1 * matrix2) → Bool) : heldCount c ≤ 29 := by
  unfold heldCount
  have h : (Finset.univ.filter fun j : Fin (matrix1 * matrix2) => 3 ≤ j.val ∧ c j = true)
      ⊆ Finset.univ.filter fun j : Fin (matrix1 * matrix2) => 3 ≤ j.val := by
    intro j hj
    simp only [Finset.mem_filter, Finset.mem_univ, true_and] at hj ⊢
    exact hj.1
  exact le_trans (Finset.card_le_card h) (by set_option maxRecDepth 4096 in decide)

theorem heldCount_press (c : Fin (matrix1 * matrix2) → Bool) (i : Fin (matrix1 * matrix2))
    (hi : 3 ≤ i.val) (hc : c i = false) : heldCount (setAt c i true) = heldCount c + 1 := by
  unfold heldCount
  have h : (Finset.univ.filter fun j : Fin (matrix1 * matrix2) =>
        3 ≤ j.val ∧ setAt c i true j = true)
      = insert i (Finset.univ.filter fun j : Fin (matrix1 * matrix2) =>
        3 ≤ j.val ∧ c j = true) := by
    ext j
    by_cases hj : j = i
    · subst hj; simp [setAt, hi]
    · simp [setAt, hj]
  rw [h, Finset.card_insert_of_not_mem]
  simp [hc]

theorem heldCount_release (c : Fin (matrix1 * matrix2) → Bool) (i : Fin (matrix1 * matrix2))
    (hi : 3 ≤ i.val) (hc : c i = true) : heldCount (setAt c i false) + 1 = heldCount c := by
  unfold heldCount
  have h : (Finset.univ.filter fun j : Fin (matrix1 * matrix2) => 3 ≤ j.val ∧ c j = true)
      = insert i (Finset.univ.filter fun j : Fin (matrix1 * matrix2) =>
        3 ≤ j.val ∧ setAt c i false j = true) := by
    ext j
    by_cases hj : j = i
    · subst hj; simp [setAt, hi, hc]
    · simp [setAt, hj]
  rw [h, Finset.card_insert_of_not_mem]
  simp [setAt]

theorem heldCount_eq_zero_iff (c : Fin (matrix1 * matrix2) → Bool) :
    heldCount c = 0 ↔ ∀ j : Fin (matrix1 * matrix2), 3 ≤ j.val → c j = false := by
  unfold heldCount
  rw [Finset.card_eq_zero, Finset.filter_eq_empty_iff]
  constructor
  · intro h j hj
    have := h (Finset.mem_univ j)
    cases hc : c j
    · rfl
    · exact absurd ⟨hj, hc⟩ this
  · intro h j _ hj
    rw [h j hj.1] at hj
    exact Bool.noConfusion hj.2

theorem writeKeysBody_counted (s : Synth) (i : Fin (matrix1 * matrix2)) (hi : 3 ≤ i.val)
    (h : voicesCounted s) : voicesCounted (writeKeysBody s i).1 := by
  unfold voicesCounted at h ⊢
  cases hr : s.requestState i <;> cases hc : s.currentState i
  · rw [writeKeysBody_idle s i (by rw [hr, hc])]; exact h
  · rw [writeKeysBody_release s i hr hc]
    have h1 := heldCount_release s.currentState i hi hc
    show (s.numVoices + 255) % 256 = heldCount (setAt s.currentState i false)
    have h2 := heldCount_le s.currentState
    omega
  · rw [writeKeysBody_press s i hr hc]
    have h1 := heldCount_press s.currentState i hi hc
    show (s.numVoices + 1) % 256 = heldCount (setAt s.currentState i true)
    have h2 := heldCount_le (setAt s.currentState i true)
    omega
  · rw [writeKeysBody_idle s i (by rw [hr, hc])]; exact h

theorem writeKeysLoop_counted (l : List (Fin (matrix1 * matrix2))) :
    ∀ s : Synth, (∀ j ∈ l, 3 ≤ j.val) → voicesCounted s → voicesCounted (writeKeysLoop l s).1 := by
  induction l with
  | nil => intro s _ h; exact h
  | cons i l ih =>
    intro s hl h
    exact ih _ (fun j hj => hl j (List.mem_cons_of_mem _ hj))
      (writeKeysBody_counted s i (hl i (List.mem_cons_self _ _)) h)

theorem runScans_counted (scans : List (Fin (matrix1 * matrix2) → Bool)) :
    ∀ s : Synth, voicesCounted s → voicesCounted (runScans s scans) := by
  induction scans with
  | nil => intro s h; exact h
  | cons pins rest ih =>
    intro s h
    have h1 : voicesCounted (scanKeys s pins).1 :=
      writeKeysLoop_counted keyIndices (readKeys s pins)
        (fun j hj => (mem_keyIndices j).mp hj) h
    have h2 := ih _ h1
    unfold runScans at h2 ⊢
    rw [List.foldl_cons]
    exact h2

theorem stateBeforeKey_counted (s : Synth) (h0 : noKeyHeld s)
    (scans : List (Fin (matrix1 * matrix2) → Bool)) (pins : Fin (matrix1 * matrix2) → Bool)
    (k : Nat) : voicesCounted (stateBeforeKey s scans pins k) := by
  have hs : voicesCounted s := by
    unfold voicesCounted
    rw [h0.2, eq_comm, heldCount_eq_zero_iff]
    exact fun j _ => h0.1 j
  exact writeKeysLoop_counted _ _
    (fun j hj => (mem_keyIndices j).mp (List.mem_of_mem_take hj))
    (runScans_counted scans s hs)

/-- Under the counter invariant, an iteration calls `handleNoteOff` exactly
when it is a release that leaves no key held. -/
theorem writeKeysBody_noteOff_iff (s : Synth) (i : Fin (matrix1 * matrix2)) (hi : 3 ≤ i.val)
    (h : voicesCounted s) :
    (KeyEvent.noteOff ∈ (writeKeysBody s i).2
        ↔ (s.requestState i = false ∧ s.currentState i = true)
          ∧ ∀ j : Fin (matrix1 * matrix2), 3 ≤ j.val → (writeKeysBody s i).1.currentState j = false)
      ∧ ((writeKeysBody s i).1.numVoices = 0
        ↔ ∀ j : Fin (matrix1 * matrix2), 3 ≤ j.val → (writeKeysBody s i).1.currentState j = false) := by
  have hcnt := writeKeysBody_counted s i hi h
  unfold voicesCounted at hcnt
  refine ⟨?_, by rw [hcnt, heldCount_eq_zero_iff]⟩
  rw [← heldCount_eq_zero_iff, ← hcnt]
  cases hr : s.requestState i <;> cases hc : s.currentState i
  · rw [writeKeysBody_idle s i (by rw [hr, hc])]; simp
  · rw [writeKeysBody_release s i hr hc]
    show KeyEvent.noteOff ∈ (if (s.numVoices + 255) % 256 = 0 then [KeyEvent.noteOff] else [])
      ↔ _ ∧ (s.numVoices + 255) % 256 = 0
    split_ifs with hz <;> simp [hz]
  · rw [writeKeysBody_press s i hr hc]; simp
  · rw [writeKeysBody_idle s i (by rw [hr, hc])]; simp

/-! ## Keyboard: the claims -/

/-- C9. Started with no key held, after any sequence of scans and at any point
of a further scan, the iteration for key `i` calls `handleNoteOff` exactly when
it is a release that leaves no key in `3..31` recorded as held, which is when
`numVoices` has reached 0; and the four scans press `a`, press `b`, release
`b`, release `a` call it once, in the last scan, not at the release of `b`. -/
theorem noteOff_iff_last_release (s : Synth) (h0 : noKeyHeld s) :
    (∀ (scans : List (Fin (matrix1 * matrix2) → Bool)) (pins : Fin (matrix1 * matrix2) → Bool)
        (k : Nat) (i : Fin (matrix1 * matrix2)), keyIndices[k]? = some i →
        (KeyEvent.noteOff ∈ (writeKeysBody (stateBeforeKey s scans pins k) i).2
          ↔ ((stateBeforeKey s scans pins k).requestState i = false
              ∧ (stateBeforeKey s scans pins k).currentState i = true)
            ∧ ∀ j : Fin (matrix1 * matrix2), 3 ≤ j.val →
              (writeKeysBody (stateBeforeKey s scans pins k) i).1.currentState j = false)
        ∧ ((writeKeysBody (stateBeforeKey s scans pins k) i).1.numVoices = 0
          ↔ ∀ j : Fin (matrix1 * matrix2), 3 ≤ j.val →
              (writeKeysBody (stateBeforeKey s scans pins k) i).1.currentState j = false))
      ∧ ∀ a b : Fin (matrix1 * matrix2), 3 ≤ a.val → 3 ≤ b.val → a ≠ b →
        (pressPressReleaseRelease s a b).map noteOffCount = [0, 0, 0, 1] := by
  refine ⟨fun scans pins k i hk => ?_, fun a b ha hb hab => ?_⟩
  · exact writeKeysBody_noteOff_iff _ i ((mem_keyIndices i).mp (List.getElem?_mem hk))
      (stateBeforeKey_counted s h0 scans pins k)
  · rw [pressPressReleaseRelease_eq s h0 a b ha hb hab]
    rfl

set_option maxRecDepth 100000 in
theorem noteOff_iff_last_release_witness :
    KeyEvent.noteOff
        ∈ (writeKeysBody (stateBeforeKey initial [keysDown [5]] (keysDown []) 2) 5).2
      ∧ (pressPressReleaseRelease initial 5 9).map noteOffCount = [0, 0, 0, 1] :=
  ⟨((noteOff_iff_last_release initial (by decide)).1 [keysDown [5]] (keysDown []) 2 5
      (by decide)).1.mpr (by decide),
    (noteOff_iff_last_release initial (by decide)).2 5 9 (by decide) (by decide) (by decide)⟩

/-! ## Serial receiver -/

theorem bufferList_length (buf : Fin numChars → Char) : (bufferList buf).length = 32 := by
  simp [bufferList]

theorem bufferList_setAt (buf : Fin numChars → Char) (k : Fin numChars) (c : Char) :
    bufferList (setAt buf k c) = (bufferList buf).set k.val c := by
  apply List.ext_getElem
  · simp [bufferList]
  · intro i h1 h2
    simp only [bufferList, List.getElem_map, List.getElem_finRange, List.getElem_set, setAt,
      Fin.ext_iff, Fin.coe_cast]
    by_cases hik : k.val = i
    · simp [hik]
    · have : ¬ i = k.val := fun e => hik e.symm
      simp [hik, this]

theorem take_set_self (l : List Char) (c : Char) :
    ∀ n : Nat, (l.set n c).take n = l.take n := by
  induction l with
  | nil => intro n; simp
  | cons x xs ih =>
    intro n
    cases n with
    | zero => simp
    | succ m => simp [ih m]

theorem take_succ_set_self (l : List Char) (c : Char) :
    ∀ n : Nat, n < l.length → (l.set n c).take (n + 1) = l.take n ++ [c] := by
  induction l with
  | nil => intro n h; exact absurd h (Nat.not_lt_zero _)
  | cons x xs ih =>
    intro n h
    cases n with
    | zero => simp
    | succ m => simp [ih m (by simpa using h)]

/-- Writing a NUL at position `n` cuts the C string there, when no NUL comes
before. -/
theorem takeWhile_set_nul (l : List Char) :
    ∀ n : Nat, n < l.length → (∀ c ∈ l.take n, c ≠ Char.ofNat 0) →
      (l.set n (Char.ofNat 0)).takeWhile (fun c => decide (c ≠ Char.ofNat 0)) = l.take n := by
  induction l with
  | nil => intro n h; exact absurd h (Nat.not_lt_zero _)
  | cons x xs ih =>
    intro n h hc
    cases n with
    | zero => simp
    | succ m =>
      have hx : x ≠ Char.ofNat 0 := hc x (by simp)
      have hrest : ∀ c ∈ xs.take m, c ≠ Char.ofNat 0 := fun c hm => hc c (by simp [hm])
      simp only [List.set_cons_succ, List.take_succ_cons]
      rw [List.takeWhile_cons_of_pos (by simpa using hx), ih m (by simpa using h) hrest]

theorem checkSerial_start (r : Receiver) (s : Synth) (hr : r.idle) :
    ∃ r2, checkSerial r s (some '<') = some (r2, s, none) ∧ receiving r2 [] := by
  obtain ⟨h1, h2, h3⟩ := hr
  refine ⟨{ r with recvInProgress := true, newData := false }, ?_, ?_⟩
  · simp [checkSerial, receiveChar, h1, h2]
  · exact ⟨rfl, rfl, by simpa using h3, by simp [h3]⟩

theorem checkSerial_payload (r : Receiver) (s : Synth) (q : List Char) (c : Char)
    (h : receiving r q) (hc : c ≠ '>') :
    ∃ r2, checkSerial r s (some c) = some (r2, s, none) ∧ receiving r2 (q ++ [c]) := by
  obtain ⟨h1, h2, h3, h4⟩ := h
  have hn : r.ndx < numChars := by show r.ndx < 32; omega
  have hlen := bufferList_length r.receivedChars
  refine ⟨{ r with
      receivedChars := setAt r.receivedChars ⟨r.ndx, hn⟩ c
      ndx := if (r.ndx + 1) % 256 ≥ numChars then numChars - 1 else (r.ndx + 1) % 256
      newData := false }, ?_, rfl, h2, ?_, ?_⟩
  · simp [checkSerial, receiveChar, storeChar, h1, h2, hc, hn]
  · show (if (r.ndx + 1) % 256 ≥ 32 then 32 - 1 else (r.ndx + 1) % 256)
      = min (q ++ [c]).length 31
    rw [List.length_append, List.length_singleton]
    split_ifs <;> omega
  · show (bufferList (setAt r.receivedChars ⟨r.ndx, hn⟩ c)).take
        (if (r.ndx + 1) % 256 ≥ 32 then 32 - 1 else (r.ndx + 1) % 256) = (q ++ [c]).take 31
    rw [bufferList_setAt]
    by_cases hq : q.length < 31
    · have e1 : r.ndx = q.length := by omega
      have e2 : (if (r.ndx + 1) % 256 ≥ 32 then 32 - 1 else (r.ndx + 1) % 256) = r.ndx + 1 := by
        split_ifs <;> omega
      rw [e2, take_succ_set_self _ _ _ (by omega), h4,
        List.take_of_length_le (by omega : q.length ≤ 31),
        List.take_of_length_le (by simp; omega)]
    · have e1 : r.ndx = 31 := by omega
      have e2 : (if (r.ndx + 1) % 256 ≥ 32 then 32 - 1 else (r.ndx + 1) % 256) = r.ndx := by
        split_ifs <;> omega
      rw [e2, take_set_self, h4, List.take_append_of_le_length (by omega)]

theorem checkSerial_end (r : Receiver) (s : Synth) (q : List Char) (h : receiving r q)
    (hq : ∀ c ∈ q, c ≠ Char.ofNat 0) :
    ∃ r2, checkSerial r s (some '>')
        = some (r2, checkData s (q.take 31), some (q.take 31)) ∧ r2.idle := by
  obtain ⟨h1, h2, h3, h4⟩ := h
  have hn : r.ndx < numChars := by show r.ndx < 32; omega
  have hmsg : cString (setAt r.receivedChars ⟨r.ndx, hn⟩ (Char.ofNat 0)) = q.take 31 := by
    unfold cString
    rw [bufferList_setAt, takeWhile_set_nul _ _ (by rw [bufferList_length]; exact hn), h4]
    rw [h4]
    exact fun c hc => hq c (List.mem_of_mem_take hc)
  refine ⟨{ r with
      receivedChars := setAt r.receivedChars ⟨r.ndx, hn⟩ (Char.ofNat 0)
      recvInProgress := false
      ndx := 0
      newData := false }, ?_, rfl, rfl, rfl⟩
  simp [checkSerial, receiveChar, storeChar, h1, h2, hn, hmsg]

theorem feedSerial_payload (p : List Char) (hp : ∀ c ∈ p, c ≠ '>') :
    ∀ (r : Receiver) (s : Synth) (q : List Char), receiving r q →
      ∃ r2, feedSerial p r s = some (r2, s, []) ∧ receiving r2 (q ++ p) := by
  induction p with
  | nil => intro r s q h; exact ⟨r, rfl, by simpa using h⟩
  | cons c p ih =>
    intro r s q h
    obtain ⟨r1, e1, h1⟩ := checkSerial_payload r s q c h (hp c (List.mem_cons_self _ _))
    obtain ⟨r2, e2, h2⟩ := ih (fun x hx => hp x (List.mem_cons_of_mem _ hx)) r1 s (q ++ [c]) h1
    refine ⟨r2, ?_, by simpa using h2⟩
    simp [feedSerial, e1, e2]

theorem feedSerial_message (p : List Char) (hp : ∀ c ∈ p, c ≠ '>') :
    ∀ (r : Receiver) (s : Synth) (q : List Char), receiving r q →
      (∀ c ∈ q ++ p, c ≠ Char.ofNat 0) →
      ∃ r2, feedSerial (p ++ ['>']) r s
          = some (r2, checkData s ((q ++ p).take 31), [(q ++ p).take 31]) ∧ r2.idle := by
  induction p with
  | nil =>
    intro r s q h hq
    rw [List.append_nil] at hq ⊢
    obtain ⟨r2, e2, h2⟩ := checkSerial_end r s q h hq
    exact ⟨r2, by simp [feedSerial, e2], h2⟩
  | cons c p ih =>
    intro r s q h hq
    obtain ⟨r1, e1, h1⟩ := checkSerial_payload r s q c h (hp c (List.mem_cons_self _ _))
    obtain ⟨r2, e2, h2⟩ := ih (fun x hx => hp x (List.mem_cons_of_mem _ hx)) r1 s (q ++ [c]) h1
      (by simpa using hq)
    refine ⟨r2, ?_, h2⟩
    rw [List.append_assoc, List.singleton_append] at e2
    simp [feedSerial, e1, e2]

/-- C11. From the idle receiver, feeding `<`, then any payload without `>` and
NUL, then `>`, one character per call: every call stays inside the 32-byte
buffer (it returns, and the write index is at most 31 after each call), the
only message handed to `checkData` is the first `min n 31` payload characters,
and the receiver is idle again. -/
theorem oversized_message_truncated (r : Receiver) (s : Synth) (payload : List Char)
    (hr : r.idle) (hp : payloadChars payload) :
    (∃ r2, feedSerial ('<' :: (payload ++ ['>'])) r s
        = some (r2, checkData s (payload.take 31), [payload.take 31]) ∧ r2.idle)
      ∧ (∀ k : Nat, ∃ r2 s2 ms, feedSerial (('<' :: (payload ++ ['>'])).take k) r s
          = some (r2, s2, ms) ∧ r2.ndx ≤ 31)
      ∧ (payload.take 31).length = min payload.length 31 := by
  have hgt : ∀ c ∈ payload, c ≠ '>' := fun c hc => (hp c hc).1
  have hnul : ∀ c ∈ payload, c ≠ Char.ofNat 0 := fun c hc => (hp c hc).2
  obtain ⟨r1, e1, h1⟩ := checkSerial_start r s hr
  refine ⟨?_, ?_, by simp [Nat.min_comm]⟩
  · obtain ⟨r3, e3, h3⟩ := feedSerial_message payload hgt r1 s [] h1 (by simpa using hnul)
    rw [List.nil_append] at e3
    exact ⟨r3, by simp [feedSerial, e1, e3], h3⟩
  · intro k
    cases k with
    | zero => exact ⟨r, s, [], rfl, by rw [hr.2.2]; omega⟩
    | succ k =>
      rw [List.take_succ_cons]
      by_cases hk : k ≤ payload.length
      · rw [List.take_append_of_le_length hk]
        obtain ⟨r2, e2, h2⟩ := feedSerial_payload (payload.take k)
          (fun c hc => hgt c (List.mem_of_mem_take hc)) r1 s [] h1
        refine ⟨r2, s, [], by simp [feedSerial, e1, e2], ?_⟩
        rw [h2.2.2.1]; omega
      · rw [List.take_of_length_le (by simp; omega)]
        obtain ⟨r3, e3, h3⟩ := feedSerial_message payload hgt r1 s [] h1
          (by simpa using hnul)
        rw [List.nil_append] at e3
        refine ⟨r3, checkData s (payload.take 31), [payload.take 31],
          by simp [feedSerial, e1, e3], ?_⟩
        rw [h3.2.2]; omega

set_option maxRecDepth 100000 in
theorem oversized_message_truncated_witness :
    (∃ r2, feedSerial ('<' :: ("OSC1_FINE:000000000000000000000000000000017".toList ++ ['>']))
          Receiver.initial initial
        = some (r2, checkData initial ("OSC1_FINE:000000000000000000000000000000017".toList.take 31),
            ["OSC1_FINE:000000000000000000000000000000017".toList.take 31]) ∧ r2.idle)
      ∧ (∀ k : Nat, ∃ r2 s2 ms,
          feedSerial
            (('<' :: ("OSC1_FINE:000000000000000000000000000000017".toList ++ ['>'])).take k)
            Receiver.initial initial = some (r2, s2, ms) ∧ r2.ndx ≤ 31)
      ∧ ("OSC1_FINE:000000000000000000000000000000017".toList.take 31).length
        = min "OSC1_FINE:000000000000000000000000000000017".toList.length 31 :=
  oversized_message_truncated Receiver.initial initial
    "OSC1_FINE:000000000000000000000000000000017".toList (by decide) (by decide)

/-! ## Strings -/

theorem indexOf_append_colon (pre rest : List Char) (h : ∀ c ∈ pre, c ≠ ':') :
    indexOf (pre ++ ':' :: rest) ':' = (pre.length : Int) := by
  induction pre with
  | nil => simp [indexOf]
  | cons x xs ih =>
    have hx : x ≠ ':' := h x (List.mem_cons_self _ _)
    have ih2 := ih (fun c hc => h c (List.mem_cons_of_mem _ hc))
    show indexOf (x :: (xs ++ ':' :: rest)) ':' = _
    rw [indexOf, if_neg hx, ih2, if_neg (by omega), List.length_cons]
    push_cast
    rfl

/-- On bounds inside a short string, `substring` is `drop` then `take`. -/
theorem substring_nat (s : List Char) (l r : Nat) (hlr : l ≤ r) (hr : r ≤ s.length)
    (hs : s.length ≤ 31) : substring s (l : Int) (r : Int) = (s.drop l).take (r - l) := by
  unfold substring
  have e1 : ((l : Int) % 4294967296).toNat = l := by omega
  have e2 : ((r : Int) % 4294967296).toNat = r := by omega
  have c1 : ¬ l > r := by omega
  have c2 : ¬ r > s.length := by omega
  simp only [e1, e2, if_neg c1, if_neg c2]
  by_cases hl : l ≥ s.length
  · rw [if_pos hl, List.drop_of_length_le hl, List.take_nil]
  · rw [if_neg hl]

theorem substring_left (pre rest : List Char) (h : (pre ++ rest).length ≤ 31) :
    substring (pre ++ rest) 0 (pre.length : Int) = pre := by
  have e := substring_nat (pre ++ rest) 0 pre.length (Nat.zero_le _) (by simp) h
  rw [Nat.cast_zero] at e
  rw [e]
  simp

theorem substringFrom_right (pre rest : List Char) (h : (pre ++ rest).length ≤ 31) :
    substringFrom (pre ++ rest) (pre.length : Int) = rest := by
  unfold substringFrom
  rw [substring_nat (pre ++ rest) pre.length (pre ++ rest).length (by simp) (le_refl _) h]
  simp

theorem substring_last (pre rest : List Char) (c : Char)
    (h : (pre ++ c :: rest).length ≤ 31) :
    substring (pre ++ c :: rest) ((pre.length : Int) + 1 - 1) ((pre.length : Int) + 1) = [c] := by
  have e := substring_nat (pre ++ c :: rest) pre.length (pre.length + 1) (by omega) (by simp) h
  rw [add_sub_cancel_right]
  push_cast at e
  rw [e]
  simp

theorem startsWith_append_self (a rest : List Char) : startsWith (a ++ rest) a = true := by
  induction a with
  | nil => cases rest <;> rfl
  | cons x xs ih => simp [startsWith, ih]

theorem startsWith_append_clash (a : List Char) :
    ∀ (b rest : List Char), startsWith a b = false → startsWith b a = false →
      startsWith (a ++ rest) b = false := by
  induction a with
  | nil =>
    intro b rest _ h2
    cases b <;> simp [startsWith] at h2
  | cons x xs ih =>
    intro b rest h1 h2
    cases b with
    | nil => simp [startsWith] at h1
    | cons y ys =>
      simp only [startsWith, List.cons_append, Bool.and_eq_false_imp, decide_eq_true_eq] at *
      intro e
      exact ih ys rest (h1 e) (h2 e.symm)

/-! ## `checkData` on the message of an indexed family -/

theorem runScalarBranches_none (valName : List Char) (val : Int) :
    ∀ (bs : List (List Char × (Synth → Int → Synth))) (s : Synth),
      (∀ b ∈ bs, valName ≠ b.1) → runScalarBranches valName val bs s = s := by
  intro bs
  induction bs with
  | nil => intro s _; rfl
  | cons b bs ih =>
    intro s h
    rw [runScalarBranches, if_neg (h b (List.mem_cons_self _ _))]
    exact ih s (fun x hx => h x (List.mem_cons_of_mem _ hx))

theorem family_text_no_colon (f : Family) : ∀ c ∈ f.text, c ≠ ':' := by
  cases f <;> decide

theorem family_text_length (f : Family) : 9 ≤ f.text.length ∧ f.text.length ≤ 11 := by
  cases f <;> decide

theorem scalar_not_family (f : Family) :
    ∀ b ∈ scalarBranches, startsWith b.1 f.text = false := by
  cases f <;> decide

theorem family_clash (f g : Family) (h : g ≠ f) :
    startsWith f.text g.text = false ∧ startsWith g.text f.text = false := by
  cases f <;> cases g <;> first
    | exact absurd rfl h
    | decide

theorem familyBranch_other (f g : Family) (h : g ≠ f) (rest : List Char) (colonIndex val : Int)
    (s : Synth) : familyBranch g (f.text ++ rest) colonIndex val s = s := by
  unfold familyBranch
  rw [startsWith_append_clash f.text g.text rest (family_clash f g h).1 (family_clash f g h).2]
  rfl

/-- On a message `<family text><c>:<value text>` only the branch of that
family runs, with the colon found right after `c`. -/
theorem checkData_familyMessage (s : Synth) (f : Family) (c : Char) (valueText : List Char)
    (hc : c ≠ ':') (hlen : (familyMessage f c valueText).length ≤ 31) :
    checkData s (familyMessage f c valueText)
      = if h : toInt [c] ≥ 0 ∧ toInt [c] < 9 then
          f.assign s ⟨(toInt [c]).toNat, by show (toInt [c]).toNat < 9; omega⟩ (toInt valueText)
        else s := by
  have hm : familyMessage f c valueText = (f.text ++ [c]) ++ ':' :: valueText := by
    simp [familyMessage]
  have hm2 : familyMessage f c valueText = (f.text ++ [c] ++ [':']) ++ valueText := by
    simp [familyMessage]
  have hm3 : familyMessage f c valueText = f.text ++ c :: (':' :: valueText) := rfl
  have hci : indexOf (familyMessage f c valueText) ':' = (f.text.length : Int) + 1 := by
    rw [hm, indexOf_append_colon _ _ (by
      intro x hx
      rcases List.mem_append.mp hx with h1 | h1
      · exact family_text_no_colon f x h1
      · rw [List.mem_singleton.mp h1]; exact hc)]
    simp
  have hne : (f.text.length : Int) + 1 ≠ -1 := by omega
  have hname : substring (familyMessage f c valueText) 0 ((f.text.length : Int) + 1)
      = f.text ++ [c] := by
    have e := substring_left (f.text ++ [c]) (':' :: valueText) (by rw [← hm]; exact hlen)
    rw [← hm] at e
    have hl : ((f.text ++ [c]).length : Int) = (f.text.length : Int) + 1 := by
      simp only [List.length_append, List.length_singleton]; push_cast; rfl
    rw [hl] at e
    exact e
  have hval : substringFrom (familyMessage f c valueText) ((f.text.length : Int) + 1 + 1)
      = valueText := by
    have e := substringFrom_right (f.text ++ [c] ++ [':']) valueText (by rw [← hm2]; exact hlen)
    rw [← hm2] at e
    have hl : ((f.text ++ [c] ++ [':']).length : Int) = (f.text.length : Int) + 1 + 1 := by
      simp only [List.length_append, List.length_singleton]; push_cast; rfl
    rw [hl] at e
    exact e
  have hidx : substring (familyMessage f c valueText) ((f.text.length : Int) + 1 - 1)
      ((f.text.length : Int) + 1) = [c] :=
    substring_last f.text (':' :: valueText) c (by rw [← hm3]; exact hlen)
  have hscalar : ∀ b ∈ scalarBranches, f.text ++ [c] ≠ b.1 := by
    intro b hb e
    have h1 := scalar_not_family f b hb
    rw [← e, startsWith_append_self] at h1
    exact Bool.noConfusion h1
  have hother : ∀ (g : Family) (v : Int) (st : Synth), g ≠ f →
      familyBranch g (familyMessage f c valueText) ((f.text.length : Int) + 1) v st = st :=
    fun g v st hg => familyBranch_other f g hg _ _ _ _
  have hself : ∀ st : Synth,
      familyBranch f (familyMessage f c valueText) ((f.text.length : Int) + 1)
          (toInt valueText) st
        = if h : toInt [c] ≥ 0 ∧ toInt [c] < 9 then
            f.assign st ⟨(toInt [c]).toNat, by show (toInt [c]).toNat < 9; omega⟩
              (toInt valueText)
          else st := by
    intro st
    unfold familyBranch
    rw [hm3, startsWith_append_self, ← hm3]
    simp only [if_true, ne_eq, hne, not_false_eq_true, hidx]
  unfold checkData
  simp only [hci, ne_eq, hne, not_false_eq_true, if_true, hname, hval,
    runScalarBranches_none _ _ _ _ hscalar]
  cases f <;> simp (disch := decide) only [hother] <;> exact hself s

/-! ## The text of a number and `toInt` -/

theorem digitChar_facts (d : Nat) (h : d < 10) :
    digitValue (digitChar d) = some d ∧ isSpace (digitChar d) = false
      ∧ digitChar d ≠ '-' ∧ digitChar d ≠ '+' ∧ digitChar d ≠ ':' := by
  have key : ∀ e : Fin 10, digitValue (digitChar e.val) = some e.val
      ∧ isSpace (digitChar e.val) = false
      ∧ digitChar e.val ≠ '-' ∧ digitChar e.val ≠ '+' ∧ digitChar e.val ≠ ':' := by decide
  exact key ⟨d, h⟩

theorem toInt_digit_head (c : Char) (cs : List Char) (hs : isSpace c = false)
    (hm : c ≠ '-') (hp : c ≠ '+') : toInt (c :: cs) = clampLong (parseDigits (c :: cs) 0) := by
  unfold toInt
  rw [List.dropWhile_cons_of_neg (by simp [hs])]
  split
  · next cs2 e => exact absurd (List.cons.inj e).1 hm
  · next cs2 e => exact absurd (List.cons.inj e).1 hp
  · rfl

theorem toInt_minus (cs : List Char) :
    toInt ('-' :: cs) = clampLong (-(parseDigits cs 0 : Int)) := by
  unfold toInt
  rw [List.dropWhile_cons_of_neg (by decide)]
  split
  · next cs2 e => rw [(List.cons.inj e).2]
  · next cs2 e => exact absurd (List.cons.inj e).1 (by decide)
  · next h1 _ => exact absurd rfl (h1 cs)

theorem parseDigits_digits (l : List Nat) (hl : ∀ d ∈ l, d < 10) :
    ∀ acc : Nat, parseDigits (l.map digitChar) acc = l.foldl (fun a d => a * 10 + d) acc := by
  induction l with
  | nil => intro acc; rfl
  | cons d l ih =>
    intro acc
    have hd := (digitChar_facts d (hl d (List.mem_cons_self _ _))).1
    simp only [List.map_cons, parseDigits, hd, List.foldl_cons]
    exact ih (fun x hx => hl x (List.mem_cons_of_mem _ hx)) _

theorem parseDigits_decimalNat (n : Nat) : parseDigits (decimalNat n) 0 = n := by
  unfold decimalNat
  split_ifs with h
  · subst h; decide
  · rw [parseDigits_digits _ (fun d hd => Nat.digits_lt_base (by decide)
      (List.mem_reverse.mp hd)), List.foldl_reverse]
    have e := Nat.ofDigits_digits 10 n
    rw [Nat.ofDigits_eq_foldr] at e
    have hf : (fun (x y : Nat) => y * 10 + x) = fun x y => x + 10 * y := by
      funext x y; omega
    rw [hf]
    exact e

/-- The first character of the decimal text of a natural number is a digit. -/
theorem decimalNat_head (n : Nat) :
    ∃ d cs, d < 10 ∧ decimalNat n = digitChar d :: cs := by
  unfold decimalNat
  split_ifs with h
  · exact ⟨0, [], by decide, by decide⟩
  · have hne : (Nat.digits 10 n).reverse ≠ [] := by
      simpa using (Nat.digits_ne_nil_iff_ne_zero.mpr h)
    cases hr : (Nat.digits 10 n).reverse with
    | nil => exact absurd hr hne
    | cons d ds =>
      have hd : d ∈ Nat.digits 10 n := List.mem_reverse.mp (by rw [hr]; exact List.mem_cons_self _ _)
      exact ⟨d, ds.map digitChar, Nat.digits_lt_base (by decide) hd, by simp⟩

/-- Reading back the decimal text of an `int` gives the `int`. -/
theorem toInt_decimal (v : Int) (hv : inInt32 v) : toInt (decimal v) = v := by
  unfold inInt32 at hv
  unfold decimal
  split_ifs with h
  · rw [toInt_minus, parseDigits_decimalNat]
    unfold clampLong
    split_ifs <;> omega
  · obtain ⟨d, cs, hd, e⟩ := decimalNat_head v.natAbs
    obtain ⟨_, h2, h3, h4, _⟩ := digitChar_facts d hd
    have e2 := toInt_digit_head (digitChar d) cs h2 h3 h4
    rw [← e, parseDigits_decimalNat] at e2
    rw [e2]
    unfold clampLong
    split_ifs <;> omega

theorem decimal_length (v : Int) (hv : inInt32 v) : (decimal v).length ≤ 11 := by
  unfold inInt32 at hv
  have hn : (decimalNat v.natAbs).length ≤ 10 := by
    unfold decimalNat
    split_ifs with h
    · decide
    · rw [List.length_map, List.length_reverse, Nat.digits_len 10 _ (by decide) h]
      have hlt : v.natAbs < 10 ^ 10 := by norm_num; omega
      have := Nat.log_lt_of_lt_pow h hlt
      omega
  unfold decimal
  split_ifs
  · rw [List.length_cons]; omega
  · omega

/-! ## `checkData`: the claims -/

theorem toInt_digitChar (d : Fin numModValues) : toInt [digitChar d.val] = (d.val : Int) := by
  revert d; decide

theorem assign_table (f g : Family) (s : Synth) (d i : Fin numModValues) (v : Int) :
    g.table (f.assign s d v) i = if g = f ∧ i = d then v else g.table s i := by
  cases f <;> cases g <;> simp [Family.assign, Family.table, setAt]

theorem assign_base (f : Family) (s : Synth) (d : Fin numModValues) (v : Int) :
    ∀ t, ptrModValues (f.assign s d v) t = ptrModValues s t := by
  intro t; cases f <;> rfl

/-- C12. For every indexed family, every digit `d` in `0..8` and every `int`
value `v`, `checkData` on the message `<family text><d>:<v>` sets entry `d` of
that family's table to `v` and changes nothing else: every other entry of
every route table and every base parameter is as before; for instance
`ENVAMOUNT_3:120` sets `env2Amount[3] = 120`. -/
theorem indexed_family_sets_entry (s : Synth) (f : Family) (d : Fin numModValues) (v : Int)
    (hv : inInt32 v) :
    checkData s (routeMessage f d v) = f.assign s d v
      ∧ (∀ (g : Family) (i : Fin numModValues),
          g.table (checkData s (routeMessage f d v)) i
            = if g = f ∧ i = d then v else g.table s i)
      ∧ (∀ t, ptrModValues (checkData s (routeMessage f d v)) t = ptrModValues s t)
      ∧ routeMessage Family.ENVAMOUNT 3 120 = "ENVAMOUNT_3:120".toList := by
  have hd9 : d.val < 9 := d.isLt
  have hd := digitChar_facts d.val (by omega)
  have hlen : (familyMessage f (digitChar d.val) (decimal v)).length ≤ 31 := by
    have h1 := (family_text_length f).2
    have h2 := decimal_length v hv
    simp only [familyMessage, List.length_append, List.length_cons]
    omega
  have hti := toInt_digitChar d
  have hcond : toInt [digitChar d.val] ≥ 0 ∧ toInt [digitChar d.val] < 9 := by
    rw [hti]; omega
  have key : checkData s (routeMessage f d v) = f.assign s d v := by
    show checkData s (familyMessage f (digitChar d.val) (decimal v)) = _
    rw [checkData_familyMessage s f _ _ hd.2.2.2.2 hlen, dif_pos hcond, toInt_decimal v hv]
    congr 1
    apply Fin.ext
    show (toInt [digitChar d.val]).toNat = d.val
    rw [hti]; rfl
  refine ⟨key, fun g i => ?_, fun t => ?_, ?_⟩
  · rw [key, assign_table]
  · rw [key, assign_base]
  · simp [routeMessage, decimal, decimalNat, Family.text, digitChar]
    decide

theorem indexed_family_sets_entry_witness :
    checkData initial (routeMessage Family.ENVAMOUNT 3 120) = Family.ENVAMOUNT.assign initial 3 120
      ∧ (∀ (g : Family) (i : Fin numModValues),
          g.table (checkData initial (routeMessage Family.ENVAMOUNT 3 120)) i
            = if g = Family.ENVAMOUNT ∧ i = 3 then 120 else g.table initial i)
      ∧ (∀ t, ptrModValues (checkData initial (routeMessage Family.ENVAMOUNT 3 120)) t
          = ptrModValues initial t)
      ∧ routeMessage Family.ENVAMOUNT 3 120 = "ENVAMOUNT_3:120".toList :=
  indexed_family_sets_entry initial Family.ENVAMOUNT 3 120 (by decide)

/-- C13 fails on the code.  A character before the colon that is no digit
reads as index 0: `ENVAMOUNT_x:120` sets `env2Amount[0]` to 120 and
`ENVVARNDX:5` sets `env2VarNdx[0]` to 5, where both were 0 and -1 before;
only an index outside `0..8`, as in `ENVAMOUNT_9:120`, changes nothing. -/
theorem non_digit_index_writes_entry_zero :
    initial.env2Amount 0 = 0
      ∧ (checkData initial "ENVAMOUNT_x:120".toList).env2Amount 0 = 120
      ∧ initial.env2VarNdx 0 = -1
      ∧ (checkData initial "ENVVARNDX:5".toList).env2VarNdx 0 = 5
      ∧ (∀ i, (checkData initial "ENVAMOUNT_9:120".toList).env2Amount i = initial.env2Amount i)
      ∧ toInt "x".toList = 0 := by
  decide

/-- C14 fails on the code.  From the initial state, the messages `ENVVARNDX0:9`
and `ENV2_STATE:1` leave the target index 9 in `env2VarNdx[0]`, which is
neither -1 nor in `0..8`, and the next `modulator(ENV2_STATE, LFO1_STATE,
LFO2_STATE)` writes `modValues[9]`, outside the table. -/
theorem serial_target_out_of_bounds :
    targetNineExample.env2VarNdx 0 = 9
      ∧ targetNineExample.ENV2_STATE = true
      ∧ ¬ validTargets targetNineExample.env2VarNdx
      ∧ (modulator targetNineExample targetNineExample.ENV2_STATE targetNineExample.LFO1_STATE
          targetNineExample.LFO2_STATE).isNone = true := by
  decide

/-! ## `checkData`: the oscillator tuning variables -/

theorem runScalarBranches_keeps {α : Type} (proj : Synth → α) (valName : List Char)
    (val : Int) :
    ∀ (bs : List (List Char × (Synth → Int → Synth))),
      (∀ b ∈ bs, ∀ (st : Synth) (v : Int), proj (b.2 st v) = proj st) →
      ∀ s : Synth, proj (runScalarBranches valName val bs s) = proj s := by
  intro bs
  induction bs with
  | nil => intro _ s; rfl
  | cons b bs ih =>
    intro h s
    rw [runScalarBranches, ih (fun x hx => h x (List.mem_cons_of_mem _ hx))]
    split_ifs
    · exact h b (List.mem_cons_self _ _) s val
    · rfl

theorem scalarBranches_keep_OSC2_SEMI :
    ∀ b ∈ scalarBranches, ∀ (st : Synth) (v : Int), (b.2 st v).OSC2_SEMI = st.OSC2_SEMI := by
  simp [scalarBranches]

theorem familyBranch_keeps_OSC2_SEMI (f : Family) (message : List Char) (colonIndex val : Int)
    (s : Synth) : (familyBranch f message colonIndex val s).OSC2_SEMI = s.OSC2_SEMI := by
  have ha : ∀ (i : Fin numModValues), (f.assign s i val).OSC2_SEMI = s.OSC2_SEMI := by
    intro i; cases f <;> rfl
  unfold familyBranch
  simp only []
  split_ifs
  · exact ha _
  all_goals rfl

/-- C19 fails on the code.  No branch of `checkData` assigns `OSC2_SEMI`: for
every state and every message it is left as it was (the name `OSC1_SEMI` is
tested twice instead), so `OSC2_SEMI:7` leaves the initial 0, while
`OSC1_SEMI:7`, `OSC1_OCT:7` and `OSC2_OCT:7` set their variables to 7. -/
theorem OSC2_SEMI_never_set :
    (∀ (s : Synth) (message : List Char), (checkData s message).OSC2_SEMI = s.OSC2_SEMI)
      ∧ (checkData initial "OSC2_SEMI:7".toList).OSC2_SEMI = 0
      ∧ (checkData initial "OSC1_SEMI:7".toList).OSC1_SEMI = 7
      ∧ (checkData initial "OSC1_OCT:7".toList).OSC1_OCT = 7
      ∧ (checkData initial "OSC2_OCT:7".toList).OSC2_OCT = 7 := by
  refine ⟨fun s message => ?_, by decide, by decide, by decide, by decide⟩
  unfold checkData
  simp only [familyBranch_keeps_OSC2_SEMI]
  exact runScalarBranches_keeps (fun st => st.OSC2_SEMI) _ _ scalarBranches
    scalarBranches_keep_OSC2_SEMI s

/-! ## Modulation matrix: a pure recomputation -/

/-- C15. With targets `-1` or in `0..8`, `modulator` returns; it leaves the
nine base parameters, the three source samples and the nine route tables as
they were; what it stores in `modulatedValuesOutput` is the same whatever
`modValues` and `modulatedValuesOutput` held before; and a second call with
the same flags stores the same output again. -/
theorem modulator_pure_recomputation (s : Synth) (env2 lfo1 lfo2 : Bool)
    (hv0 : validTargets s.env2VarNdx) (hv1 : validTargets s.LFO1VarNdx)
    (hv2 : validTargets s.LFO2VarNdx) :
    ∃ s2, modulator s env2 lfo1 lfo2 = some s2
      ∧ (∀ t, ptrModValues s2 t = ptrModValues s t)
      ∧ (s2.env2_now = s.env2_now ∧ s2.LFO1_now = s.LFO1_now ∧ s2.LFO2_now = s.LFO2_now)
      ∧ (∀ f : Family, f.table s2 = f.table s)
      ∧ (∀ (mv mo : Fin numModValues → Int),
          (modulator { s with modValues := mv, modulatedValuesOutput := mo } env2 lfo1 lfo2).map
              (fun r => r.modulatedValuesOutput) = some s2.modulatedValuesOutput)
      ∧ (modulator s2 env2 lfo1 lfo2).map (fun r => r.modulatedValuesOutput)
          = some s2.modulatedValuesOutput := by
  obtain ⟨mv, h1, _⟩ := modulator_spec s env2 lfo1 lfo2 ⟨fun _ => hv0, fun _ => hv1, fun _ => hv2⟩
  have hout : (modulator s env2 lfo1 lfo2).map (fun r => r.modulatedValuesOutput)
      = some (fun i => clampFinal (wrap32 (ptrModValues s i + mv i))) := by
    rw [h1]; rfl
  refine ⟨_, h1, fun t => rfl, ⟨rfl, rfl, rfl⟩, fun f => by cases f <;> rfl, fun mv2 mo => ?_, ?_⟩
  · rw [← hout]
    exact modulator_output_congr _ _ _ _ _ (fun m i => rfl) (fun i => rfl)
  · rw [← hout]
    exact modulator_output_congr _ _ _ _ _ (fun m i => rfl) (fun i => rfl)

theorem modulator_pure_recomputation_witness :
    ∃ s2, modulator lfoRouteExample true true true = some s2
      ∧ (∀ t, ptrModValues s2 t = ptrModValues lfoRouteExample t)
      ∧ (s2.env2_now = lfoRouteExample.env2_now ∧ s2.LFO1_now = lfoRouteExample.LFO1_now
        ∧ s2.LFO2_now = lfoRouteExample.LFO2_now)
      ∧ (∀ f : Family, f.table s2 = f.table lfoRouteExample)
      ∧ (∀ (mv mo : Fin numModValues → Int),
          (modulator { lfoRouteExample with modValues := mv, modulatedValuesOutput := mo }
              true true true).map
              (fun r => r.modulatedValuesOutput) = some s2.modulatedValuesOutput)
      ∧ (modulator s2 true true true).map (fun r => r.modulatedValuesOutput)
          = some s2.modulatedValuesOutput :=
  modulator_pure_recomputation lfoRouteExample true true true (by decide) (by decide)
    (by decide)

/-! ## Keyboard: edges only -/

theorem writeKeysBody_synced (s : Synth) (i : Fin (matrix1 * matrix2)) :
    (writeKeysBody s i).1.currentState i = s.requestState i := by
  cases hr : s.requestState i <;> cases hc : s.currentState i
  · rw [writeKeysBody_idle s i (by rw [hr, hc])]; exact hc
  · rw [writeKeysBody_release s i hr hc]; simp [setAt]
  · rw [writeKeysBody_press s i hr hc]; simp [setAt]
  · rw [writeKeysBody_idle s i (by rw [hr, hc])]; exact hc

/-- After the loop, every visited key is recorded as it was requested, and
the other entries of `currentState` are as before. -/
theorem writeKeysLoop_synced (l : List (Fin (matrix1 * matrix2))) :
    ∀ s : Synth, l.Nodup →
      (writeKeysLoop l s).1.requestState = s.requestState
        ∧ (∀ j ∈ l, (writeKeysLoop l s).1.currentState j = s.requestState j)
        ∧ (∀ j, j ∉ l → (writeKeysLoop l s).1.currentState j = s.currentState j) := by
  induction l with
  | nil => intro s _; exact ⟨rfl, fun j hj => absurd hj (List.not_mem_nil _), fun _ _ => rfl⟩
  | cons i l ih =>
    intro s hnd
    obtain ⟨hil, hnd2⟩ := List.nodup_cons.mp hnd
    obtain ⟨fr, fc⟩ := writeKeysBody_frame s i
    obtain ⟨h1, h2, h3⟩ := ih (writeKeysBody s i).1 hnd2
    show (writeKeysLoop l (writeKeysBody s i).1).1.requestState = s.requestState
      ∧ (∀ j ∈ i :: l, (writeKeysLoop l (writeKeysBody s i).1).1.currentState j
          = s.requestState j)
      ∧ (∀ j, j ∉ i :: l → (writeKeysLoop l (writeKeysBody s i).1).1.currentState j
          = s.currentState j)
    refine ⟨by rw [h1, fr], fun j hj => ?_, fun j hj => ?_⟩
    · rcases List.mem_cons.mp hj with e | e
      · subst e
        rw [h3 j hil, writeKeysBody_synced]
      · rw [h2 j e, fr]
    · have hji : j ≠ i := fun e => hj (e ▸ List.mem_cons_self _ _)
      have hjl : j ∉ l := fun e => hj (List.mem_cons_of_mem _ e)
      rw [h3 j hjl, fc j hji]

/-- Replacing `requestState` by one that agrees on key `i` changes neither the
calls nor the rest of the result of the iteration for key `i`. -/
theorem writeKeysBody_congr (s : Synth) (pins : Fin (matrix1 * matrix2) → Bool)
    (i : Fin (matrix1 * matrix2)) (h : pins i = s.requestState i) :
    writeKeysBody { s with requestState := pins } i
      = ({ (writeKeysBody s i).1 with requestState := pins }, (writeKeysBody s i).2) := by
  have hr2 : ({ s with requestState := pins } : Synth).requestState i = s.requestState i := h
  have hc2 : ({ s with requestState := pins } : Synth).currentState i = s.currentState i := rfl
  cases hr : s.requestState i <;> cases hc : s.currentState i
  · rw [writeKeysBody_idle s i (by rw [hr, hc]),
      writeKeysBody_idle { s with requestState := pins } i (by rw [hr2, hc2, hr, hc])]
  · rw [writeKeysBody_release s i hr hc,
      writeKeysBody_release { s with requestState := pins } i (by rw [hr2, hr])
        (by rw [hc2, hc])]
  · rw [writeKeysBody_press s i hr hc,
      writeKeysBody_press { s with requestState := pins } i (by rw [hr2, hr])
        (by rw [hc2, hc])]
  · rw [writeKeysBody_idle s i (by rw [hr, hc]),
      writeKeysBody_idle { s with requestState := pins } i (by rw [hr2, hc2, hr, hc])]

theorem writeKeysLoop_congr (pins : Fin (matrix1 * matrix2) → Bool)
    (l : List (Fin (matrix1 * matrix2))) :
    ∀ s : Synth, (∀ j ∈ l, pins j = s.requestState j) →
      writeKeysLoop l { s with requestState := pins }
        = ({ (writeKeysLoop l s).1 with requestState := pins }, (writeKeysLoop l s).2) := by
  induction l with
  | nil => intro s _; rfl
  | cons i l ih =>
    intro s h
    have hb := writeKeysBody_congr s pins i (h i (List.mem_cons_self _ _))
    have hrest := ih (writeKeysBody s i).1 (fun j hj => by
      rw [(writeKeysBody_frame s i).1]; exact h j (List.mem_cons_of_mem _ hj))
    simp only [writeKeysLoop, hb, hrest]

/-- C16. `writeKeys` reacts to edges only: a second call with the same
`requestState` makes no call and leaves the whole state as it is, for every
prior state; and the entries 0..2 of `requestState` play no part: two scans
whose pins agree on `3..31` make the same calls and leave the same
`currentState` and `numVoices`, and entries 0..2 of `currentState` are never
written. -/
theorem writeKeys_edges_only (s : Synth) :
    writeKeys (writeKeys s).1 = ((writeKeys s).1, [])
      ∧ (∀ pins pins2 : Fin (matrix1 * matrix2) → Bool,
          (∀ j : Fin (matrix1 * matrix2), 3 ≤ j.val → pins2 j = pins j) →
          (scanKeys s pins2).2 = (scanKeys s pins).2
            ∧ (scanKeys s pins2).1.currentState = (scanKeys s pins).1.currentState
            ∧ (scanKeys s pins2).1.numVoices = (scanKeys s pins).1.numVoices)
      ∧ (∀ j : Fin (matrix1 * matrix2), j.val < 3 →
          (writeKeys s).1.currentState j = s.currentState j) := by
  obtain ⟨h1, h2, h3⟩ := writeKeysLoop_synced keyIndices s keyIndices_nodup
  unfold scanKeys writeKeys
  refine ⟨?_, fun pins pins2 hp => ?_, fun j hj => ?_⟩
  · apply writeKeysLoop_idle
    intro j hj
    rw [h1, h2 j hj]
  · have e := writeKeysLoop_congr pins2 keyIndices (readKeys s pins)
      (fun j hj => hp j ((mem_keyIndices j).mp hj))
    have hrk : ({ readKeys s pins with requestState := pins2 } : Synth) = readKeys s pins2 :=
      rfl
    rw [hrk] at e
    rw [e]
    generalize writeKeysLoop keyIndices (readKeys s pins) = x
    exact ⟨rfl, rfl, rfl⟩
  · exact h3 j (fun hm => by have := (mem_keyIndices j).mp hm; omega)

theorem writeKeys_edges_only_witness :
    writeKeys (writeKeys (readKeys initial (keysDown [5]))).1
        = ((writeKeys (readKeys initial (keysDown [5]))).1, [])
      ∧ (scanKeys initial (keysDown [0, 5])).2 = (scanKeys initial (keysDown [5])).2
      ∧ (writeKeys (readKeys initial (keysDown [0, 5]))).1.currentState 0
        = (readKeys initial (keysDown [0, 5])).currentState 0 :=
  ⟨(writeKeys_edges_only (readKeys initial (keysDown [5]))).1,
    ((writeKeys_edges_only initial).2.1 (keysDown [5]) (keysDown [0, 5]) (by decide)).1,
    (writeKeys_edges_only (readKeys initial (keysDown [0, 5]))).2.2 0 (by decide)⟩

/-- C20. Started with no key held, after every scan of any sequence of scans
`numVoices` is the number of keys in `3..31` recorded as held, which is at
most 29 (so the byte counter did not wrap), and `currentState[i]` equals
`requestState[i]` for every `i` in `3..31`. -/
theorem voice_counter_invariant (s : Synth) (h0 : noKeyHeld s)
    (scans : List (Fin (matrix1 * matrix2) → Bool)) (pins : Fin (matrix1 * matrix2) → Bool) :
    (scanKeys (runScans s scans) pins).1.numVoices
        = heldCount (scanKeys (runScans s scans) pins).1.currentState
      ∧ (scanKeys (runScans s scans) pins).1.numVoices ≤ 29
      ∧ (∀ j : Fin (matrix1 * matrix2), 3 ≤ j.val →
          (scanKeys (runScans s scans) pins).1.currentState j
            = (scanKeys (runScans s scans) pins).1.requestState j)
      ∧ (scanKeys (runScans s scans) pins).1.requestState = pins := by
  have hs : voicesCounted s := by
    unfold voicesCounted
    rw [h0.2, eq_comm, heldCount_eq_zero_iff]
    exact fun j _ => h0.1 j
  have hc := writeKeysLoop_counted keyIndices (readKeys (runScans s scans) pins)
    (fun j hj => (mem_keyIndices j).mp hj) (runScans_counted scans s hs)
  obtain ⟨h1, h2, _⟩ := writeKeysLoop_synced keyIndices (readKeys (runScans s scans) pins)
    keyIndices_nodup
  unfold scanKeys writeKeys
  unfold voicesCounted at hc
  refine ⟨hc, ?_, fun j hj => ?_, h1⟩
  · rw [hc]; exact heldCount_le _
  · rw [h1]
    exact h2 j ((mem_keyIndices j).mpr hj)

set_option maxRecDepth 100000 in
theorem voice_counter_invariant_witness :
    (scanKeys (runScans initial [keysDown [5, 9], keysDown [9]]) (keysDown [9, 30])).1.numVoices
        = heldCount
          (scanKeys (runScans initial [keysDown [5, 9], keysDown [9]])
            (keysDown [9, 30])).1.currentState
      ∧ (scanKeys (runScans initial [keysDown [5, 9], keysDown [9]])
          (keysDown [9, 30])).1.numVoices ≤ 29
      ∧ (∀ j : Fin (matrix1 * matrix2), 3 ≤ j.val →
          (scanKeys (runScans initial [keysDown [5, 9], keysDown [9]])
            (keysDown [9, 30])).1.currentState j
            = (scanKeys (runScans initial [keysDown [5, 9], keysDown [9]])
              (keysDown [9, 30])).1.requestState j)
      ∧ (scanKeys (runScans initial [keysDown [5, 9], keysDown [9]])
          (keysDown [9, 30])).1.requestState = keysDown [9, 30] :=
  voice_counter_invariant initial (by decide) [keysDown [5, 9], keysDown [9]]
    (keysDown [9, 30])

/-! ## Distortion: identity when disabled, and the multiplier -/

/-- C17. A disabled distortion returns the signal, for every signal, amount
and mode.  Enabled, the signal is multiplied by `1 + amount / 51` (the clip
mode returns the product where it lies within the clip range), and for an
amount in `0..255` this multiplier lies in `1..6`, does not decrease when the
amount grows, changes from `amount - 1` to `amount` exactly at the multiples
of 51, is 1 exactly for `0..50` and is 6 exactly at 255. -/
theorem distortion_identity_and_gain :
    (∀ signal amount mode : Int, distortion signal amount false mode = signal)
      ∧ (∀ signal amount : Int, 0 ≤ amount → amount ≤ 255 →
          -24500 ≤ signal * (1 + amount / 51) → signal * (1 + amount / 51) ≤ 24500 →
          distortion signal amount true 0 = signal * (1 + amount / 51))
      ∧ (∀ amount : Int, 0 ≤ amount → amount ≤ 255 →
          distortionGain amount = 1 + amount / 51
            ∧ 1 ≤ distortionGain amount ∧ distortionGain amount ≤ 6
            ∧ (distortionGain amount = 1 ↔ amount ≤ 50)
            ∧ (distortionGain amount = 6 ↔ amount = 255)
            ∧ (0 < amount →
              (distortionGain amount ≠ distortionGain (amount - 1) ↔ amount % 51 = 0)))
      ∧ (∀ a b : Int, 0 ≤ a → a ≤ b → b ≤ 255 → distortionGain a ≤ distortionGain b) := by
  have hg : ∀ amount : Int, 0 ≤ amount → amount ≤ 255 →
      distortionGain amount = 1 + amount / 51 := by
    intro amount h0 h1
    unfold distortionGain
    rw [Int.tdiv_eq_ediv h0 (by decide), wrap32_of_inInt32 (by unfold inInt32; omega)]
  refine ⟨fun signal amount mode => by simp [distortion], ?_, ?_, ?_⟩
  · intro signal amount h0 h1 hlo hhi
    have e := hg amount h0 h1
    unfold distortionGain at e
    simp only [distortion, if_true, e]
    rw [wrap32_of_inInt32 (by unfold inInt32; omega)]
    split_ifs <;> omega
  · intro amount h0 h1
    rw [hg amount h0 h1]
    refine ⟨rfl, by omega, by omega, by omega, by omega, fun hpos => ?_⟩
    rw [hg (amount - 1) (by omega) (by omega)]
    omega
  · intro a b h0 hab h1
    rw [hg a h0 (by omega), hg b (by omega) h1]
    omega

theorem distortion_identity_and_gain_witness :
    distortion 1000 102 true 0 = 1000 * (1 + 102 / 51)
      ∧ (distortionGain 255 = 6 ↔ (255 : Int) = 255)
      ∧ (distortionGain 102 ≠ distortionGain (102 - 1) ↔ (102 : Int) % 51 = 0)
      ∧ distortionGain 50 ≤ distortionGain 51 :=
  ⟨distortion_identity_and_gain.2.1 1000 102 (by decide) (by decide) (by decide) (by decide),
    (distortion_identity_and_gain.2.2.1 255 (by decide) (by decide)).2.2.2.2.1,
    (distortion_identity_and_gain.2.2.1 102 (by decide) (by decide)).2.2.2.2.2 (by decide),
    distortion_identity_and_gain.2.2.2 50 51 (by decide) (by decide) (by decide)⟩

/-! ## Pitch: `detune` -/

/-- C18. Over exact rational arithmetic: a zero fine-tune gives a zero offset
for every frequency; a positive one gives `0.0595 * freq * fine / 255` and a
negative one `0.0561 * freq * fine / 255`; hence for a positive frequency the
offset has the sign of `fine`; and at 440 the offset for `fine = 128` is
larger in magnitude than for `fine = -128`. -/
theorem detune_coefficients :
    (∀ freq : ℚ, detune freq 0 = 0)
      ∧ (∀ (freq : ℚ) (fine : Int), 0 < fine →
          detune freq fine = 595 / 10000 * freq * fine / 255)
      ∧ (∀ (freq : ℚ) (fine : Int), fine < 0 →
          detune freq fine = 561 / 10000 * freq * fine / 255)
      ∧ (∀ (freq : ℚ) (fine : Int), 0 < freq →
          (0 < fine → 0 < detune freq fine) ∧ (fine < 0 → detune freq fine < 0))
      ∧ |detune 440 (-128)| < |detune 440 128| := by
  have hpos : ∀ (freq : ℚ) (fine : Int), 0 < fine →
      detune freq fine = 595 / 10000 * freq * fine / 255 := by
    intro freq fine h
    unfold detune
    rw [if_pos h]
    norm_num
  have hneg : ∀ (freq : ℚ) (fine : Int), fine < 0 →
      detune freq fine = 561 / 10000 * freq * fine / 255 := by
    intro freq fine h
    unfold detune
    rw [if_neg (by omega), if_pos h]
    norm_num
  refine ⟨fun freq => by simp [detune], hpos, hneg, fun freq fine hf => ⟨fun h => ?_, fun h => ?_⟩,
    ?_⟩
  · rw [hpos freq fine h]
    have hq : (0 : ℚ) < fine := by exact_mod_cast h
    positivity
  · rw [hneg freq fine h]
    have hq : (fine : ℚ) < 0 := by exact_mod_cast h
    have : 561 / 10000 * freq * (fine : ℚ) / 255 = (561 / 10000 * freq / 255) * fine := by ring
    rw [this]
    exact mul_neg_of_pos_of_neg (by positivity) hq
  · rw [hpos 440 128 (by decide), hneg 440 (-128) (by decide)]
    rw [abs_of_neg (by norm_num), abs_of_pos (by norm_num)]
    norm_num

theorem detune_coefficients_witness :
    detune 440 128 = 595 / 10000 * 440 * ((128 : Int) : ℚ) / 255
      ∧ detune 440 (-128) = 561 / 10000 * 440 * ((-128 : Int) : ℚ) / 255
      ∧ 0 < detune 440 128 ∧ detune 440 (-128) < 0 :=
  ⟨detune_coefficients.2.1 440 128 (by decide),
    detune_coefficients.2.2.1 440 (-128) (by decide),
    (detune_coefficients.2.2.2.1 440 128 (by norm_num)).1 (by decide),
    (detune_coefficients.2.2.2.1 440 (-128) (by norm_num)).2 (by decide)⟩

/-! ## Audio chain: the noise gate -/

/-- C21. The noise is gated by the base `NOISE_LEVEL`.  When it is 0, what
`updateAudio` emits is the same for every noise sample and every value of
`modulatedValuesOutput[4]`.  When it is not 0, the emitted sample is the
sample emitted with the gate closed plus, in 32-bit arithmetic, the term
`((env1next * noiseSample * modulatedValuesOutput[4]) >> 8) >> 2`; for an
envelope sample in `0..255`, a noise sample in `-128..127` and an effective
level in `[-255, 255]` the products of that term do not overflow. -/
theorem noise_gated_by_base_level (s : Synth) (env1next osc1next osc2next : Int)
    (filter : Int → FilterOut) :
    (s.NOISE_LEVEL = 0 → ∀ noiseNext noiseOther v4 : Int,
        (updateAudio { s with modulatedValuesOutput := setAt s.modulatedValuesOutput 4 v4 }
            env1next osc1next osc2next noiseOther filter).2
          = (updateAudio s env1next osc1next osc2next noiseNext filter).2)
      ∧ (s.NOISE_LEVEL ≠ 0 → ∀ noiseNext : Int,
        (updateAudio s env1next osc1next osc2next noiseNext filter).2.1
            = wrap32 ((updateAudio { s with NOISE_LEVEL := 0 } env1next osc1next osc2next
                  noiseNext filter).2.1
                + (wrap32 (wrap32 (env1next * noiseNext) * s.modulatedValuesOutput 4)
                    >>> (8 : Nat)) >>> (2 : Nat))
          ∧ ((0 ≤ env1next ∧ env1next ≤ 255) → (-128 ≤ noiseNext ∧ noiseNext ≤ 127) →
              (-255 ≤ s.modulatedValuesOutput 4 ∧ s.modulatedValuesOutput 4 ≤ 255) →
              wrap32 (wrap32 (env1next * noiseNext) * s.modulatedValuesOutput 4)
                = env1next * noiseNext * s.modulatedValuesOutput 4)) := by
  refine ⟨fun h noiseNext noiseOther v4 => ?_, fun h noiseNext => ⟨?_, fun he hn hm => ?_⟩⟩
  · have e0 : setAt s.modulatedValuesOutput 4 v4 0 = s.modulatedValuesOutput 0 := by
      simp [setAt]
    have e2 : setAt s.modulatedValuesOutput 4 v4 2 = s.modulatedValuesOutput 2 := by
      simp [setAt]
    simp only [updateAudio, h, ne_eq, not_true_eq_false, if_false, e0, e2]
  · simp only [updateAudio, ne_eq, h, not_false_eq_true, if_true, not_true_eq_false, if_false]
  · have pn := mul_bounds (a := 255) (b := 128) (x := env1next) (y := noiseNext)
      (by omega) (by omega)
    have wn : wrap32 (env1next * noiseNext) = env1next * noiseNext :=
      wrap32_of_inInt32 (by unfold inInt32; omega)
    have pn2 := mul_bounds (a := 255 * 128) (b := 255) pn hm
    rw [wn]
    exact wrap32_of_inInt32 (by unfold inInt32; omega)

theorem noise_gated_by_base_level_witness :
    (updateAudio
          { noiseRouteExample with
            modulatedValuesOutput := setAt noiseRouteExample.modulatedValuesOutput 4 0 }
          255 100 0 0 silentFilter).2
        = (updateAudio noiseRouteExample 255 100 0 127 silentFilter).2
      ∧ (updateAudio noiseOnExample 255 100 0 127 silentFilter).2.1
        = wrap32 ((updateAudio { noiseOnExample with NOISE_LEVEL := 0 } 255 100 0 127
              silentFilter).2.1
            + (wrap32 (wrap32 (255 * 127) * noiseOnExample.modulatedValuesOutput 4)
                >>> (8 : Nat)) >>> (2 : Nat))
      ∧ wrap32 (wrap32 (255 * 127) * noiseOnExample.modulatedValuesOutput 4)
        = 255 * 127 * noiseOnExample.modulatedValuesOutput 4 :=
  ⟨(noise_gated_by_base_level noiseRouteExample 255 100 0 silentFilter).1 (by decide) 127 0 0,
    ((noise_gated_by_base_level noiseOnExample 255 100 0 silentFilter).2 (by decide) 127).1,
    ((noise_gated_by_base_level noiseOnExample 255 100 0 silentFilter).2 (by decide) 127).2
      (by decide) (by decide) (by decide)⟩

/-! ## Control cycle: the published filter parameters -/

/-- C22 fails on the code.  In `negativeCutoffExample` the base cutoff 0 and
resonance 5 are in `0..255`, the amounts are in `-255..255` and the targets
are usable, and after `modulator(ENV2_STATE, LFO1_STATE, LFO2_STATE)` the
effective cutoff `modulatedValuesOutput[7]` is -255 and the effective
resonance `modulatedValuesOutput[8]` is -250: the clamp keeps them in
`[-255, 255]`, not in `0..255`, and the `uint8_t` parameters of the filter
receive 1 and 6. -/
theorem negative_cutoff_published :
    (0 ≤ negativeCutoffExample.FILTERCUTOFF ∧ negativeCutoffExample.FILTERCUTOFF ≤ 255)
      ∧ (0 ≤ negativeCutoffExample.FILTERRESONANCE
        ∧ negativeCutoffExample.FILTERRESONANCE ≤ 255)
      ∧ amountsInGuiRange negativeCutoffExample
      ∧ sourcesInRange negativeCutoffExample
      ∧ validTargets negativeCutoffExample.env2VarNdx
      ∧ validTargets negativeCutoffExample.LFO1VarNdx
      ∧ validTargets negativeCutoffExample.LFO2VarNdx
      ∧ (modulator negativeCutoffExample negativeCutoffExample.ENV2_STATE
            negativeCutoffExample.LFO1_STATE negativeCutoffExample.LFO2_STATE).map
          (fun r => (r.modulatedValuesOutput 7, r.modulatedValuesOutput 8,
            publishedFilterParams r))
        = some (-255, -250, (1, 6)) := by
  decide

end Synthesizer
